import Mathlib

/-!
# Verification of the Prowler Studio check inventory and workflow engine

This file gives a shallow embedding, in Lean 4, of the parts of the
`prowler-studio` code base that its specification makes claims about:

* the storage codec of `CheckInventory` (`_prepare_data_for_storage` /
  `_get_data_format_for_storage`, which compose UTF-8 encoding, a gzip
  compression call and base64 transport encoding);
* the inventory itself (a nested dictionary `provider → service →
  {description, code, checks}` with per-check `{metadata, code, fixer}`
  records) and its read, sync and delete operations;
* the deletion sweep `_load_deleted_checks_from_local_repo` of
  `CheckMetadataVectorStore`;
* the fan-in join (`check_return`), the metadata retry loop
  (`create_check_metadata`) of the check-creation workflow, and the three
  stages of the fixer-creation workflow.

Python strings are modelled by Lean `String`, byte strings by `List Nat`
(each element `< 256`), dictionaries by association lists with unique keys,
raised exceptions by `Except String`.  External library calls (CPython's
`gzip`, `base64`, `json`, llama-index's `Context.collect_events`, the LLM
clients) are modelled by explicit executable Lean functions or oracle
parameters whose documented observable behaviour is reproduced; in
particular `gzip.compress` receives the current wall-clock time as an
explicit `mtime` argument, because CPython stores that value in bytes 4..8
of the produced header.
-/

set_option maxRecDepth 40000
set_option linter.unusedVariables false

/-! ## Python-style helpers -/

/-- `splitChar sep l` is Python's `str.split(sep)` on the character list of a
string (for a one-character separator): the list of chunks between
occurrences of `sep`.  It always returns at least one (possibly empty)
chunk. -/
def splitChar (sep : Char) : List Char → List (List Char)
  | [] => [[]]
  | c :: rest =>
    match splitChar sep rest with
    | [] => [[c]]
    | g :: gs => if c = sep then [] :: g :: gs else (c :: g) :: gs

/-- Python's `s.split(sep)` for a one-character separator, as Lean strings. -/
def pySplit (sep : Char) (s : String) : List String :=
  (splitChar sep s.data).map String.mk

/-- The characters of `l` before the first occurrence of `sep` (all of `l`
if `sep` does not occur): Python's `l.split(sep)[0]`. -/
def takeUntil (sep : Char) : List Char → List Char
  | [] => []
  | c :: rest => if c = sep then [] else c :: takeUntil sep rest

/-- Python's `check_id.split("_")[0]`: the service name that
`CheckInventory.delete_check` derives from a check id. -/
def service_of_check_id (check_id : String) : String :=
  String.mk (takeUntil '_' check_id.data)

/-- Dictionary lookup (`d.get(k)` / `d[k]`) on an association list. -/
def dget {α : Type} (m : List (String × α)) (k : String) : Option α :=
  match m with
  | [] => none
  | (k', v) :: rest => if k' = k then some v else dget rest k

/-- Dictionary update `d[k] = v`: replaces the value in place if the key is
present (Python dicts keep insertion order), appends otherwise. -/
def dset {α : Type} (m : List (String × α)) (k : String) (v : α) : List (String × α) :=
  match m with
  | [] => [(k, v)]
  | (k', v') :: rest => if k' = k then (k', v) :: rest else (k', v') :: dset rest k v

/-- Dictionary deletion `del d[k]` (the caller checks presence). -/
def ddel {α : Type} (m : List (String × α)) (k : String) : List (String × α) :=
  match m with
  | [] => []
  | (k', v') :: rest => if k' = k then rest else (k', v') :: ddel rest k

/-- The key list of a dictionary (Python's `d.keys()`, insertion order). -/
def dkeys {α : Type} (m : List (String × α)) : List String := m.map Prod.fst

theorem dget_dset_self {α : Type} (m : List (String × α)) (k : String) (v : α) :
    dget (dset m k v) k = some v := by
  induction m with
  | nil => simp [dget, dset]
  | cons hd tl ih =>
    obtain ⟨k', v'⟩ := hd
    by_cases h : k' = k <;> simp [dget, dset, h, ih]

theorem dget_dset_ne {α : Type} (m : List (String × α)) (k k' : String) (v : α)
    (h : k ≠ k') : dget (dset m k v) k' = dget m k' := by
  induction m with
  | nil => simp [dget, dset, h]
  | cons hd tl ih =>
    obtain ⟨k₀, v₀⟩ := hd
    by_cases h0 : k₀ = k
    · subst h0; simp [dget, dset, h]
    · simp only [dset, if_neg h0]
      by_cases h1 : k₀ = k' <;> simp [dget, h1, ih]

theorem dget_ddel_self {α : Type} (m : List (String × α)) (k : String)
    (h : (dkeys m).Nodup) : dget (ddel m k) k = none := by
  induction m with
  | nil => simp [dget, ddel]
  | cons hd tl ih =>
    obtain ⟨k', v'⟩ := hd
    simp only [dkeys, List.map_cons, List.nodup_cons] at h
    by_cases h0 : k' = k
    · subst h0
      simp only [ddel, if_pos rfl]
      -- k' no longer occurs in tl
      clear ih
      induction tl with
      | nil => simp [dget]
      | cons hd2 tl2 ih2 =>
        obtain ⟨k₂, v₂⟩ := hd2
        simp only [List.map_cons, List.mem_cons, List.nodup_cons] at h
        have hne : k₂ ≠ k' := fun he => h.1 (Or.inl he.symm)
        simp only [dget, if_neg hne]
        exact ih2 ⟨fun hm => h.1 (Or.inr hm), h.2.2⟩
    · simp only [ddel, if_neg h0, dget, if_neg h0]
      exact ih h.2

theorem dget_ddel_ne {α : Type} (m : List (String × α)) (k k' : String)
    (h : k ≠ k') : dget (ddel m k) k' = dget m k' := by
  induction m with
  | nil => simp [dget, ddel]
  | cons hd tl ih =>
    obtain ⟨k₀, v₀⟩ := hd
    by_cases h0 : k₀ = k
    · subst h0; simp [ddel, dget, h]
    · simp only [ddel, if_neg h0]
      by_cases h1 : k₀ = k' <;> simp [dget, h1, ih]

/-! ## Byte-level codecs

Bytes are `Nat`s `< 256`.  `le32` is a 4-byte little-endian field as written
by CPython's `gzip` module (`struct.pack("<L", n & 0xffffffff)`). -/

/-- 4-byte little-endian encoding of `n mod 2^32`. -/
def le32 (n : Nat) : List Nat :=
  [n % 256, n / 256 % 256, n / 65536 % 256, n / 16777216 % 256]

/-- One bit step of the reflected CRC-32 (polynomial `0xEDB88320`). -/
def crc32Bit (c : Nat) : Nat :=
  if c % 2 = 1 then (c / 2) ^^^ 0xEDB88320 else c / 2

/-- One byte step of CRC-32: xor the byte in, then eight bit steps. -/
def crc32Byte (crc b : Nat) : Nat :=
  crc32Bit (crc32Bit (crc32Bit (crc32Bit (crc32Bit (crc32Bit (crc32Bit (crc32Bit (crc ^^^ b))))))))

/-- CRC-32 of a byte string, as computed by `zlib.crc32` and stored in the
gzip trailer. -/
def crc32 (data : List Nat) : Nat :=
  (data.foldl crc32Byte 0xFFFFFFFF) ^^^ 0xFFFFFFFF

/-- Model of CPython's `gzip.compress(data)` (external library).

The 10-byte header is the one CPython writes: magic `1f 8b`, method `08`
(deflate), flags `00`, then the **current wall-clock time** in bytes 4..8
(little-endian; `gzip.compress`'s `mtime` keyword defaults to
`time.time()`), then `XFL = 2` (best compression) and `OS = 255` (unknown).
The trailer is the CRC-32 of the uncompressed data followed by its length
mod 2^32, both little-endian — again exactly what CPython writes.  The
deflate body in between is modelled as the raw byte string (a lossless
stand-in for the external DEFLATE coder; no claim in this development
depends on the body's exact bit layout, only on losslessness and on the
header/trailer fields). -/
def gzip_compress (mtime : Nat) (data : List Nat) : List Nat :=
  [0x1f, 0x8b, 8, 0] ++ le32 mtime ++ [2, 255] ++
    data ++ le32 (crc32 data) ++ le32 data.length

/-- Model of CPython's `gzip.decompress(blob)` (external library).

Mirrors the observable contract of `gzip.py`: an **empty input yields empty
output** (`_read_gzip_header` hits EOF before the magic and the reader
returns `b""`), a wrong magic raises `BadGzipFile("Not a gzipped file")`, a
wrong method byte raises, a truncated stream raises `EOFError`, and the
CRC-32 and length fields of the trailer are verified against the
decompressed data. -/
def gzip_decompress (blob : List Nat) : Except String (List Nat) :=
  match blob with
  | [] => .ok []
  | m0 :: m1 :: method :: _flags :: _t0 :: _t1 :: _t2 :: _t3 :: _xfl :: _os :: body =>
    if m0 = 0x1f ∧ m1 = 0x8b then
      if method = 8 then
        if body.length < 8 then
          .error "EOFError: Compressed file ended before the end-of-stream marker was reached"
        else
          let payload := body.take (body.length - 8)
          let trailer := body.drop (body.length - 8)
          if trailer.take 4 = le32 (crc32 payload) then
            if trailer.drop 4 = le32 payload.length then .ok payload
            else .error "BadGzipFile: Incorrect length of data produced"
          else .error "BadGzipFile: CRC check failed"
      else .error "BadGzipFile: Unknown compression method"
    else .error "BadGzipFile: Not a gzipped file"
  | _ :: _ =>
    if blob.take 2 = [0x1f, 0x8b] then
      .error "EOFError: Compressed file ended before the end-of-stream marker was reached"
    else .error "BadGzipFile: Not a gzipped file"

/-- The base64 alphabet of RFC 4648 as used by `base64.b64encode`:
index `0..63` to ASCII code. -/
def b64Char (n : Nat) : Nat :=
  if n < 26 then 65 + n
  else if n < 52 then 71 + n
  else if n < 62 then n - 4
  else if n = 62 then 43
  else 47

/-- Partial inverse of the base64 alphabet: ASCII code to index. -/
def b64DecChar (c : Nat) : Option Nat :=
  if 65 ≤ c ∧ c ≤ 90 then some (c - 65)
  else if 97 ≤ c ∧ c ≤ 122 then some (c - 71)
  else if 48 ≤ c ∧ c ≤ 57 then some (c + 4)
  else if c = 43 then some 62
  else if c = 47 then some 63
  else none

/-- Model of `base64.b64encode` (external library): standard base64 with
`=` (ASCII 61) padding, three input bytes per four output characters. -/
def b64encode : List Nat → List Nat
  | a :: b :: c :: rest =>
    b64Char (a / 4) :: b64Char (a % 4 * 16 + b / 16) ::
      b64Char (b % 16 * 4 + c / 64) :: b64Char (c % 64) :: b64encode rest
  | [a, b] => [b64Char (a / 4), b64Char (a % 4 * 16 + b / 16), b64Char (b % 16 * 4), 61]
  | [a] => [b64Char (a / 4), b64Char (a % 4 * 16), 61, 61]
  | [] => []

/-- Decode base64 characters four at a time; `=` (61) only as final
padding.  A group that is not decodable raises `binascii.Error`. -/
def b64decodeGroups : List Nat → Except String (List Nat)
  | [] => .ok []
  | c1 :: c2 :: c3 :: c4 :: rest =>
    match b64DecChar c1, b64DecChar c2 with
    | some v1, some v2 =>
      if c3 = 61 then
        if c4 = 61 ∧ rest = [] then .ok [v1 * 4 + v2 / 16]
        else .error "binascii.Error: Invalid base64-encoded string"
      else
        match b64DecChar c3 with
        | some v3 =>
          if c4 = 61 then
            if rest = [] then .ok [v1 * 4 + v2 / 16, v2 % 16 * 16 + v3 / 4]
            else .error "binascii.Error: Invalid base64-encoded string"
          else
            match b64DecChar c4 with
            | some v4 =>
              (b64decodeGroups rest).map
                (fun tl => (v1 * 4 + v2 / 16) :: (v2 % 16 * 16 + v3 / 4) :: (v3 % 4 * 64 + v4) :: tl)
            | none => .error "binascii.Error: Invalid base64-encoded string"
        | none => .error "binascii.Error: Invalid base64-encoded string"
    | _, _ => .error "binascii.Error: Invalid base64-encoded string"
  | _ => .error "binascii.Error: Invalid base64-encoded string: number of data characters must be a multiple of 4"

/-- Model of `base64.b64decode` (external library, `validate=False`):
characters outside the alphabet and the padding character are discarded
before decoding, then the input is consumed in groups of four. -/
def b64decode (input : List Nat) : Except String (List Nat) :=
  b64decodeGroups (input.filter (fun c => (b64DecChar c).isSome || c == 61))

/-! ## UTF-8 (Python `str.encode()` / `bytes.decode()`) -/

/-- UTF-8 encoding of one Unicode code point (CPython's `str.encode()`
applied to one character). -/
def utf8EncodeCP (n : Nat) : List Nat :=
  if n < 0x80 then [n]
  else if n < 0x800 then [0xC0 + n / 64, 0x80 + n % 64]
  else if n < 0x10000 then [0xE0 + n / 4096, 0x80 + n / 64 % 64, 0x80 + n % 64]
  else [0xF0 + n / 262144, 0x80 + n / 4096 % 64, 0x80 + n / 64 % 64, 0x80 + n % 64]

/-- Model of Python's `str.encode()`: UTF-8 bytes of the string. -/
def utf8Encode (s : String) : List Nat :=
  (s.data.map (fun c => utf8EncodeCP c.toNat)).flatten

/-- Decode one UTF-8 sequence from the front of a byte string: the code
point and the remaining bytes.  Invalid or truncated sequences raise
(Python's strict `bytes.decode()`). -/
def utf8DecodeStep : List Nat → Except String (Nat × List Nat)
  | [] => .error "UnicodeDecodeError: unexpected end of data"
  | b :: rest =>
    if b < 0x80 then .ok (b, rest)
    else if b < 0xC0 then .error "UnicodeDecodeError: invalid start byte"
    else if b < 0xE0 then
      match rest with
      | b1 :: rest' =>
        if 0x80 ≤ b1 ∧ b1 < 0xC0 then .ok ((b - 0xC0) * 64 + (b1 - 0x80), rest')
        else .error "UnicodeDecodeError: invalid continuation byte"
      | [] => .error "UnicodeDecodeError: unexpected end of data"
    else if b < 0xF0 then
      match rest with
      | b1 :: b2 :: rest' =>
        if (0x80 ≤ b1 ∧ b1 < 0xC0) ∧ (0x80 ≤ b2 ∧ b2 < 0xC0) then
          .ok ((b - 0xE0) * 4096 + (b1 - 0x80) * 64 + (b2 - 0x80), rest')
        else .error "UnicodeDecodeError: invalid continuation byte"
      | _ => .error "UnicodeDecodeError: unexpected end of data"
    else if b < 0xF8 then
      match rest with
      | b1 :: b2 :: b3 :: rest' =>
        if (0x80 ≤ b1 ∧ b1 < 0xC0) ∧ (0x80 ≤ b2 ∧ b2 < 0xC0) ∧ (0x80 ≤ b3 ∧ b3 < 0xC0) then
          .ok ((b - 0xF0) * 262144 + (b1 - 0x80) * 4096 + (b2 - 0x80) * 64 + (b3 - 0x80), rest')
        else .error "UnicodeDecodeError: invalid continuation byte"
      | _ => .error "UnicodeDecodeError: unexpected end of data"
    else .error "UnicodeDecodeError: invalid start byte"

/-- Decode a UTF-8 byte string sequence by sequence.  The fuel argument is
only a structural-recursion device: every step consumes at least one byte,
so `fuel = l.length` never runs out. -/
def utf8DecodeGo : Nat → List Nat → Except String (List Nat)
  | _, [] => .ok []
  | 0, _ :: _ => .error "UnicodeDecodeError: decoder fuel exhausted"
  | fuel + 1, b :: rest =>
    match utf8DecodeStep (b :: rest) with
    | .ok (cp, rest') => (utf8DecodeGo fuel rest').map (fun tl => cp :: tl)
    | .error e => .error e

/-- Decode a UTF-8 byte string to its list of code points. -/
def utf8DecodeCPs (l : List Nat) : Except String (List Nat) :=
  utf8DecodeGo l.length l

/-- Model of Python's `bytes.decode()`: decode UTF-8 and rebuild a string. -/
def utf8Decode (l : List Nat) : Except String String :=
  (utf8DecodeCPs l).map (fun cps => String.mk (cps.map Char.ofNat))

/-- The byte string a Python `str` turns into when handed to `bytes`-typed C
code (`base64.b64decode` accepts `str` arguments by ASCII-encoding them). -/
def strBytes (s : String) : List Nat := s.data.map Char.toNat

/-! ## The storage codec of `CheckInventory` -/

/-- `CheckInventory._prepare_data_for_storage`:
`base64.b64encode(gzip.compress(data.encode())).decode()`.  The `mtime`
argument is the wall-clock time read by `gzip.compress` when the call
happens (CPython defaults the gzip header's MTIME field to
`time.time()`). -/
def _prepare_data_for_storage (mtime : Nat) (data : String) : String :=
  String.mk ((b64encode (gzip_compress mtime (utf8Encode data))).map Char.ofNat)

/-- `base64.b64decode` applied to a `str` argument: CPython first encodes
the string as ASCII (raising `ValueError` on non-ASCII characters). -/
def b64decodeStr (s : String) : Except String (List Nat) :=
  if s.data.all (fun c => c.toNat < 128) then b64decode (strBytes s)
  else .error "ValueError: string argument should contain only ASCII characters"

/-- Re-raise an exception with the fixed prefix that
`_get_data_format_for_storage`'s `except` clause adds. -/
def wrapStorageErr (x : Except String String) : Except String String :=
  match x with
  | .ok s => .ok s
  | .error e => .error ("Error getting data format for storage: " ++ e)

/-- `CheckInventory._get_data_format_for_storage`:
`gzip.decompress(base64.b64decode(data)).decode()`, with every exception
re-raised under a fixed prefix by the method's `except` clause. -/
def _get_data_format_for_storage (data : String) : Except String String :=
  wrapStorageErr ((b64decodeStr data).bind (fun raw => (gzip_decompress raw).bind utf8Decode))

/-! ### Round-trip facts for the codec layers -/

theorem b64Char_lt_128 (v : Nat) : b64Char v < 128 := by
  unfold b64Char; split <;> [omega; skip]
  split <;> [omega; skip]
  split <;> [omega; skip]
  split <;> omega

theorem b64DecChar_b64Char : ∀ v < 64, b64DecChar (b64Char v) = some v := by decide

theorem b64Char_ne_61 : ∀ v < 64, b64Char v ≠ 61 := by decide

theorem b64Char_keep (v : Nat) (h : v < 64) :
    ((b64DecChar (b64Char v)).isSome || b64Char v == 61) = true := by
  simp [b64DecChar_b64Char v h]

theorem b64encode_mem_lt_128 (l : List Nat) : ∀ c ∈ b64encode l, c < 128 := by
  induction l using b64encode.induct with
  | case1 a b c rest ih =>
    intro x hx
    simp only [b64encode, List.mem_cons] at hx
    rcases hx with rfl | rfl | rfl | rfl | hx
    · exact b64Char_lt_128 _
    · exact b64Char_lt_128 _
    · exact b64Char_lt_128 _
    · exact b64Char_lt_128 _
    · exact ih x hx
  | case2 a b =>
    intro x hx
    simp only [b64encode, List.mem_cons] at hx
    rcases hx with rfl | rfl | rfl | rfl | hx
    · exact b64Char_lt_128 _
    · exact b64Char_lt_128 _
    · exact b64Char_lt_128 _
    · omega
    · simp at hx
  | case3 a =>
    intro x hx
    simp only [b64encode, List.mem_cons] at hx
    rcases hx with rfl | rfl | rfl | rfl | hx
    · exact b64Char_lt_128 _
    · exact b64Char_lt_128 _
    · omega
    · omega
    · simp at hx
  | case4 => intro x hx; simp [b64encode] at hx

theorem b64encode_filter_keep (l : List Nat) (h : ∀ b ∈ l, b < 256) :
    (b64encode l).filter (fun c => (b64DecChar c).isSome || c == 61) = b64encode l := by
  induction l using b64encode.induct with
  | case1 a b c rest ih =>
    have ha : a < 256 := h a (by simp)
    have hb : b < 256 := h b (by simp)
    have hc : c < 256 := h c (by simp)
    have h1 : a / 4 < 64 := by omega
    have h2 : a % 4 * 16 + b / 16 < 64 := by omega
    have h3 : b % 16 * 4 + c / 64 < 64 := by omega
    have h4 : c % 64 < 64 := by omega
    simp [b64encode, List.filter_cons, b64Char_keep _ h1, b64Char_keep _ h2,
      b64Char_keep _ h3, b64Char_keep _ h4, ih (fun x hx => h x (by simp [hx]))]
  | case2 a b =>
    have ha : a < 256 := h a (by simp)
    have hb : b < 256 := h b (by simp)
    have h1 : a / 4 < 64 := by omega
    have h2 : a % 4 * 16 + b / 16 < 64 := by omega
    have h3 : b % 16 * 4 < 64 := by omega
    simp [b64encode, List.filter_cons, b64Char_keep _ h1, b64Char_keep _ h2, b64Char_keep _ h3,
      b64DecChar_b64Char _ h3]
  | case3 a =>
    have ha : a < 256 := h a (by simp)
    have h1 : a / 4 < 64 := by omega
    have h2 : a % 4 * 16 < 64 := by omega
    simp [b64encode, List.filter_cons, b64Char_keep _ h1, b64Char_keep _ h2]
  | case4 => simp [b64encode]

theorem b64decodeGroups_b64encode (l : List Nat) (h : ∀ b ∈ l, b < 256) :
    b64decodeGroups (b64encode l) = .ok l := by
  induction l using b64encode.induct with
  | case1 a b c rest ih =>
    have ha : a < 256 := h a (by simp)
    have hb : b < 256 := h b (by simp)
    have hc : c < 256 := h c (by simp)
    have h1 : a / 4 < 64 := by omega
    have h2 : a % 4 * 16 + b / 16 < 64 := by omega
    have h3 : b % 16 * 4 + c / 64 < 64 := by omega
    have h4 : c % 64 < 64 := by omega
    simp only [b64encode, b64decodeGroups, b64DecChar_b64Char _ h1, b64DecChar_b64Char _ h2,
      b64DecChar_b64Char _ h3, b64DecChar_b64Char _ h4, if_neg (b64Char_ne_61 _ h3),
      if_neg (b64Char_ne_61 _ h4)]
    rw [ih (fun x hx => h x (by simp [hx]))]
    simp only [Except.map, Except.ok.injEq, List.cons.injEq]
    exact ⟨by omega, by omega, by omega, trivial⟩
  | case2 a b =>
    have ha : a < 256 := h a (by simp)
    have hb : b < 256 := h b (by simp)
    have h1 : a / 4 < 64 := by omega
    have h2 : a % 4 * 16 + b / 16 < 64 := by omega
    have h3 : b % 16 * 4 < 64 := by omega
    simp only [b64encode, b64decodeGroups, b64DecChar_b64Char _ h1, b64DecChar_b64Char _ h2,
      b64DecChar_b64Char _ h3, if_neg (b64Char_ne_61 _ h3), if_pos rfl]
    exact congrArg Except.ok (by simp [List.cons.injEq]; omega)
  | case3 a =>
    have ha : a < 256 := h a (by simp)
    have h1 : a / 4 < 64 := by omega
    have h2 : a % 4 * 16 < 64 := by omega
    simp only [b64encode, b64decodeGroups, b64DecChar_b64Char _ h1, b64DecChar_b64Char _ h2,
      if_pos rfl]
    exact congrArg Except.ok (by simp [List.cons.injEq]; omega)
  | case4 => simp [b64encode, b64decodeGroups]

theorem b64decode_b64encode (l : List Nat) (h : ∀ b ∈ l, b < 256) :
    b64decode (b64encode l) = .ok l := by
  rw [b64decode, b64encode_filter_keep l h, b64decodeGroups_b64encode l h]

theorem le32_mem_lt_256 (n : Nat) : ∀ b ∈ le32 n, b < 256 := by
  intro b hb
  simp only [le32, List.mem_cons] at hb
  rcases hb with rfl | rfl | rfl | rfl | hb
  · omega
  · omega
  · omega
  · omega
  · simp at hb

theorem gzip_compress_shape (mtime : Nat) (data : List Nat) :
    gzip_compress mtime data =
      0x1f :: 0x8b :: 8 :: 0 :: (mtime % 256) :: (mtime / 256 % 256) :: (mtime / 65536 % 256) ::
        (mtime / 16777216 % 256) :: 2 :: 255 ::
        (data ++ (le32 (crc32 data) ++ le32 data.length)) := by
  simp [gzip_compress, le32]

theorem gzip_compress_mem_lt_256 (mtime : Nat) (data : List Nat)
    (h : ∀ b ∈ data, b < 256) : ∀ b ∈ gzip_compress mtime data, b < 256 := by
  intro b hb
  rw [gzip_compress_shape] at hb
  simp only [List.mem_cons] at hb
  rcases hb with rfl | rfl | rfl | rfl | rfl | rfl | rfl | rfl | rfl | rfl | hb
  · omega
  · omega
  · omega
  · omega
  · omega
  · omega
  · omega
  · omega
  · omega
  · omega
  · rcases List.mem_append.1 hb with hb | hb
    · exact h b hb
    · rcases List.mem_append.1 hb with hb | hb
      · exact le32_mem_lt_256 _ b hb
      · exact le32_mem_lt_256 _ b hb

theorem gzip_decompress_gzip_compress (mtime : Nat) (data : List Nat) :
    gzip_decompress (gzip_compress mtime data) = .ok data := by
  rw [gzip_compress_shape]
  have hlen : (data ++ (le32 (crc32 data) ++ le32 data.length)).length = data.length + 8 := by
    simp [le32]
  simp only [gzip_decompress]
  rw [if_pos trivial]
  have hnl : ¬((data ++ (le32 (crc32 data) ++ le32 data.length)).length < 8) := by omega
  rw [if_neg hnl]
  have harith : (data ++ (le32 (crc32 data) ++ le32 data.length)).length - 8 = data.length := by
    omega
  rw [harith, List.take_left, List.drop_left]
  have hc1 : List.take 4 (le32 (crc32 data) ++ le32 data.length) = le32 (crc32 data) := by
    simp [le32]
  have hc2 : List.drop 4 (le32 (crc32 data) ++ le32 data.length) = le32 data.length := by
    simp [le32]
  rw [if_pos hc1, if_pos hc2]
  simp

theorem utf8EncodeCP_mem_lt_256 (n : Nat) (h : n < 0x110000) :
    ∀ b ∈ utf8EncodeCP n, b < 256 := by
  intro b hb
  rw [utf8EncodeCP] at hb
  split at hb
  · simp only [List.mem_singleton] at hb; omega
  · split at hb
    · simp only [List.mem_cons, List.not_mem_nil, or_false] at hb
      rcases hb with rfl | rfl <;> omega
    · split at hb
      · simp only [List.mem_cons, List.not_mem_nil, or_false] at hb
        rcases hb with rfl | rfl | rfl <;> omega
      · simp only [List.mem_cons, List.not_mem_nil, or_false] at hb
        rcases hb with rfl | rfl | rfl | rfl <;> omega

theorem utf8Encode_mem_lt_256 (s : String) : ∀ b ∈ utf8Encode s, b < 256 := by
  intro b hb
  simp only [utf8Encode, List.mem_flatten, List.mem_map] at hb
  obtain ⟨l, ⟨c, _, rfl⟩, hbl⟩ := hb
  have hc : c.toNat < 0x110000 := by
    rcases c.valid with h | h
    · exact Nat.lt_trans h (by decide)
    · exact h.2
  exact utf8EncodeCP_mem_lt_256 _ hc b hbl

theorem utf8DecodeStep_encode (n : Nat) (h : n < 0x110000) (rest : List Nat) :
    utf8DecodeStep (utf8EncodeCP n ++ rest) = .ok (n, rest) := by
  rw [utf8EncodeCP]
  by_cases h1 : n < 0x80
  · simp only [if_pos h1, List.cons_append, List.nil_append]
    rw [utf8DecodeStep.eq_def]
    simp only [if_pos h1]
  · by_cases h2 : n < 0x800
    · have c1 : ¬(0xC0 + n / 64 < 0x80) := by omega
      have c2 : ¬(0xC0 + n / 64 < 0xC0) := by omega
      have c3 : 0xC0 + n / 64 < 0xE0 := by omega
      have c4 : 0x80 ≤ 0x80 + n % 64 ∧ 0x80 + n % 64 < 0xC0 := by omega
      simp only [if_neg h1, if_pos h2, List.cons_append, List.nil_append]
      rw [utf8DecodeStep.eq_def]
      simp only [if_neg c1, if_neg c2, if_pos c3, if_pos c4]
      have e : (0xC0 + n / 64 - 0xC0) * 64 + (0x80 + n % 64 - 0x80) = n := by omega
      rw [e]
    · by_cases h3 : n < 0x10000
      · have c1 : ¬(0xE0 + n / 4096 < 0x80) := by omega
        have c2 : ¬(0xE0 + n / 4096 < 0xC0) := by omega
        have c3 : ¬(0xE0 + n / 4096 < 0xE0) := by omega
        have c4 : 0xE0 + n / 4096 < 0xF0 := by omega
        have c5 : (0x80 ≤ 0x80 + n / 64 % 64 ∧ 0x80 + n / 64 % 64 < 0xC0) ∧
            (0x80 ≤ 0x80 + n % 64 ∧ 0x80 + n % 64 < 0xC0) := by omega
        simp only [if_neg h1, if_neg h2, if_pos h3, List.cons_append, List.nil_append]
        rw [utf8DecodeStep.eq_def]
        simp only [if_neg c1, if_neg c2, if_neg c3, if_pos c4, if_pos c5]
        have e : (0xE0 + n / 4096 - 0xE0) * 4096 + (0x80 + n / 64 % 64 - 0x80) * 64 +
            (0x80 + n % 64 - 0x80) = n := by omega
        rw [e]
      · have c1 : ¬(0xF0 + n / 262144 < 0x80) := by omega
        have c2 : ¬(0xF0 + n / 262144 < 0xC0) := by omega
        have c3 : ¬(0xF0 + n / 262144 < 0xE0) := by omega
        have c4 : ¬(0xF0 + n / 262144 < 0xF0) := by omega
        have c5 : 0xF0 + n / 262144 < 0xF8 := by omega
        have c6 : (0x80 ≤ 0x80 + n / 4096 % 64 ∧ 0x80 + n / 4096 % 64 < 0xC0) ∧
            (0x80 ≤ 0x80 + n / 64 % 64 ∧ 0x80 + n / 64 % 64 < 0xC0) ∧
              (0x80 ≤ 0x80 + n % 64 ∧ 0x80 + n % 64 < 0xC0) := by omega
        simp only [if_neg h1, if_neg h2, if_neg h3, List.cons_append, List.nil_append]
        rw [utf8DecodeStep.eq_def]
        simp only [if_neg c1, if_neg c2, if_neg c3, if_neg c4, if_pos c5, if_pos c6]
        have e : (0xF0 + n / 262144 - 0xF0) * 262144 + (0x80 + n / 4096 % 64 - 0x80) * 4096 +
            (0x80 + n / 64 % 64 - 0x80) * 64 + (0x80 + n % 64 - 0x80) = n := by omega
        rw [e]

theorem utf8DecodeStep_length : ∀ (l : List Nat) (cp : Nat) (rest' : List Nat),
    utf8DecodeStep l = .ok (cp, rest') → rest'.length < l.length := by
  intro l cp rest' h
  match l with
  | [] => simp [utf8DecodeStep] at h
  | b :: rest =>
    rw [utf8DecodeStep.eq_def] at h
    repeat' split at h
    all_goals cases h
    all_goals (rename_i heq; cases heq; (try simp only [List.length_cons]); omega)

theorem utf8DecodeGo_fuel : ∀ (f1 f2 : Nat) (l : List Nat), l.length ≤ f1 → l.length ≤ f2 →
    utf8DecodeGo f1 l = utf8DecodeGo f2 l := by
  intro f1
  induction f1 with
  | zero =>
    intro f2 l h1 h2
    have hl : l = [] := List.length_eq_zero.1 (Nat.le_zero.1 h1)
    subst hl
    cases f2 <;> rfl
  | succ f ih =>
    intro f2 l h1 h2
    match l with
    | [] => cases f2 <;> rfl
    | b :: rest =>
      match f2 with
      | 0 => simp at h2
      | g + 1 =>
        rw [utf8DecodeGo, utf8DecodeGo]
        cases hst : utf8DecodeStep (b :: rest) with
        | ok pr =>
          obtain ⟨cp, rest'⟩ := pr
          have hlt := utf8DecodeStep_length _ _ _ hst
          simp only [List.length_cons] at hlt h1 h2
          simp only [ih g rest' (by omega) (by omega)]
        | error e => rfl

theorem utf8DecodeCPs_of_step (b : Nat) (rest : List Nat) (cp : Nat) (rest' : List Nat)
    (h : utf8DecodeStep (b :: rest) = .ok (cp, rest')) :
    utf8DecodeCPs (b :: rest) = (utf8DecodeCPs rest').map (fun tl => cp :: tl) := by
  have hlt := utf8DecodeStep_length _ _ _ h
  simp only [List.length_cons] at hlt
  rw [utf8DecodeCPs, utf8DecodeCPs]
  show utf8DecodeGo (rest.length + 1) (b :: rest) = _
  rw [utf8DecodeGo, h]
  simp only [utf8DecodeGo_fuel rest.length rest'.length rest' (by omega) (by omega)]

theorem utf8DecodeCPs_utf8Encode (cs : List Char) :
    utf8DecodeCPs ((cs.map (fun c => utf8EncodeCP c.toNat)).flatten) = .ok (cs.map Char.toNat) := by
  induction cs with
  | nil => rw [utf8DecodeCPs.eq_def]; rfl
  | cons c cs ih =>
    have hc : c.toNat < 0x110000 := by
      rcases c.valid with h | h
      · exact Nat.lt_trans h (by decide)
      · exact h.2
    simp only [List.map_cons, List.flatten_cons]
    have hstep := utf8DecodeStep_encode c.toNat hc ((cs.map (fun c => utf8EncodeCP c.toNat)).flatten)
    have hne : utf8EncodeCP c.toNat ++ (cs.map (fun c => utf8EncodeCP c.toNat)).flatten ≠ [] := by
      intro hcontra
      rw [hcontra] at hstep
      rw [utf8DecodeStep] at hstep
      cases hstep
    match hsh : utf8EncodeCP c.toNat ++ (cs.map (fun c => utf8EncodeCP c.toNat)).flatten with
    | [] => exact absurd hsh hne
    | b :: rest =>
      rw [hsh] at hstep
      rw [utf8DecodeCPs_of_step b rest c.toNat _ hstep, ih]
      rfl

theorem utf8Decode_utf8Encode (s : String) : utf8Decode (utf8Encode s) = .ok s := by
  rw [utf8Decode, utf8Encode, utf8DecodeCPs_utf8Encode]
  show Except.ok (String.mk ((s.data.map Char.toNat).map Char.ofNat)) = Except.ok s
  rw [List.map_map]
  have hid : (Char.ofNat ∘ Char.toNat) = id := by
    funext c
    exact Char.ofNat_toNat c
  rw [hid, List.map_id]

theorem toNat_Char_ofNat_valid (n : Nat) (h : n.isValidChar) : (Char.ofNat n).toNat = n := by
  rw [Char.ofNat, dif_pos h]
  rfl

/-- The full codec round trip, claim C2's core: for every wall-clock
reading and every string, unpacking the packed blob recovers the string. -/
theorem unpack_pack (mtime : Nat) (t : String) :
    _get_data_format_for_storage (_prepare_data_for_storage mtime t) = .ok t := by
  have hgz : ∀ b ∈ gzip_compress mtime (utf8Encode t), b < 256 :=
    gzip_compress_mem_lt_256 _ _ (utf8Encode_mem_lt_256 t)
  have hb64 : ∀ c ∈ b64encode (gzip_compress mtime (utf8Encode t)), c < 128 :=
    b64encode_mem_lt_128 _
  have hvalid : ∀ c ∈ b64encode (gzip_compress mtime (utf8Encode t)), Nat.isValidChar c :=
    fun c hc => Or.inl (by have := hb64 c hc; omega)
  rw [_prepare_data_for_storage, _get_data_format_for_storage]
  have hdata : (String.mk ((b64encode (gzip_compress mtime (utf8Encode t))).map Char.ofNat)).data
      = (b64encode (gzip_compress mtime (utf8Encode t))).map Char.ofNat := rfl
  have hstr : strBytes (String.mk ((b64encode (gzip_compress mtime (utf8Encode t))).map Char.ofNat))
      = b64encode (gzip_compress mtime (utf8Encode t)) := by
    rw [strBytes, hdata, List.map_map]
    have : ∀ (l : List Nat), (∀ c ∈ l, Nat.isValidChar c) → l.map (Char.toNat ∘ Char.ofNat) = l := by
      intro l
      induction l with
      | nil => intro _; rfl
      | cons x xs ih =>
        intro hl
        simp only [List.map_cons, Function.comp_apply]
        rw [toNat_Char_ofNat_valid x (hl x (by simp)), ih (fun c hc => hl c (by simp [hc]))]
    exact this _ hvalid
  have hascii : (String.mk ((b64encode (gzip_compress mtime (utf8Encode t))).map Char.ofNat)).data.all
      (fun c => c.toNat < 128) = true := by
    rw [hdata]
    rw [List.all_eq_true]
    intro c hc
    simp only [List.mem_map] at hc
    obtain ⟨b, hb, rfl⟩ := hc
    have h1 := hb64 b hb
    have h2 : (Char.ofNat b).toNat = b := toNat_Char_ofNat_valid b (hvalid b hb)
    simp [h2, h1]
  rw [b64decodeStr, if_pos hascii, hstr]
  rw [b64decode_b64encode _ hgz]
  show wrapStorageErr ((Except.ok (gzip_compress mtime (utf8Encode t))).bind
    (fun raw => (gzip_decompress raw).bind utf8Decode)) = .ok t
  rw [show (Except.ok (gzip_compress mtime (utf8Encode t))).bind
      (fun raw => (gzip_decompress raw).bind utf8Decode) =
      (gzip_decompress (gzip_compress mtime (utf8Encode t))).bind utf8Decode from rfl]
  rw [gzip_decompress_gzip_compress]
  rw [show (Except.ok (utf8Encode t)).bind utf8Decode = utf8Decode (utf8Encode t) from rfl]
  rw [utf8Decode_utf8Encode]
  rfl

/-! ## JSON (model of Python's `json` module and `dict` values)

`CheckInventory` stores check metadata as `json.dumps` text and compares
freshly parsed metadata dictionaries with `!=`.  JSON numbers are modelled
as integers (the metadata files used by the repository contain no
floats). -/

inductive Json where
  | null
  | bool (b : Bool)
  | num (n : Int)
  | str (s : String)
  | arr (items : List Json)
  | obj (fields : List (String × Json))
deriving Repr

mutual
/-- Python `==` on values parsed from JSON: dictionaries compare by key
set, not by insertion order. -/
def jsonEq : Json → Json → Bool
  | .null, .null => true
  | .bool a, .bool b => a == b
  | .num a, .num b => a == b
  | .str a, .str b => a == b
  | .arr xs, .arr ys => jsonEqArr xs ys
  | .obj xs, .obj ys => xs.length == ys.length && jsonEqObj xs ys
  | _, _ => false

def jsonEqArr : List Json → List Json → Bool
  | [], [] => true
  | x :: xs, y :: ys => jsonEq x y && jsonEqArr xs ys
  | _, _ => false

def jsonEqObj : List (String × Json) → List (String × Json) → Bool
  | [], _ => true
  | (k, v) :: xs, ys =>
    (match dget ys k with
     | some w => jsonEq v w
     | none => false) && jsonEqObj xs ys
end

/-- JSON string escaping as `json.dumps` performs it for the characters the
repository's metadata can contain. -/
def jsonEscape (cs : List Char) : List Char :=
  match cs with
  | [] => []
  | c :: rest =>
    (if c = '"' then ['\\', '"']
     else if c = '\\' then ['\\', '\\']
     else if c = '\n' then ['\\', 'n']
     else if c = '\t' then ['\\', 't']
     else if c = '\r' then ['\\', 'r']
     else [c]) ++ jsonEscape rest

mutual
/-- Model of Python's `json.dumps` with its default separators
(`", "` between items, `": "` after keys). -/
def json_dumps : Json → String
  | .null => "null"
  | .bool true => "true"
  | .bool false => "false"
  | .num n => toString n
  | .str s => String.mk ('"' :: jsonEscape s.data ++ ['"'])
  | .arr items => "[" ++ json_dumpsArr items ++ "]"
  | .obj fields => "\x7b" ++ json_dumpsObj fields ++ "\x7d"

def json_dumpsArr : List Json → String
  | [] => ""
  | [x] => json_dumps x
  | x :: xs => json_dumps x ++ ", " ++ json_dumpsArr xs

def json_dumpsObj : List (String × Json) → String
  | [] => ""
  | [(k, v)] => String.mk ('"' :: jsonEscape k.data ++ ['"']) ++ ": " ++ json_dumps v
  | (k, v) :: xs =>
    String.mk ('"' :: jsonEscape k.data ++ ['"']) ++ ": " ++ json_dumps v ++ ", " ++
      json_dumpsObj xs
end

/-- Whitespace skipped by the JSON parser. -/
def jsonSkipWs (cs : List Char) : List Char :=
  match cs with
  | c :: rest => if c = ' ' ∨ c = '\n' ∨ c = '\t' ∨ c = '\r' then jsonSkipWs rest else cs
  | [] => []

/-- Parse the body of a JSON string literal (after the opening quote). -/
def parseJsonString (fuel : Nat) (cs : List Char) : Except String (String × List Char) :=
  match fuel with
  | 0 => .error "json.JSONDecodeError: out of fuel"
  | fuel + 1 =>
    match cs with
    | [] => .error "json.JSONDecodeError: unterminated string"
    | '"' :: rest => .ok ("", rest)
    | '\\' :: e :: rest =>
      match (if e = 'n' then some '\n'
             else if e = 't' then some '\t'
             else if e = 'r' then some '\r'
             else if e = '"' then some '"'
             else if e = '\\' then some '\\'
             else if e = '/' then some '/'
             else none) with
      | some c => (parseJsonString fuel rest).map (fun p => (String.mk (c :: p.1.data), p.2))
      | none => .error "json.JSONDecodeError: unsupported escape"
    | c :: rest => (parseJsonString fuel rest).map (fun p => (String.mk (c :: p.1.data), p.2))

/-- Parse a run of decimal digits. -/
def parseJsonDigits (fuel : Nat) (cs : List Char) (acc : Nat) (seen : Bool) :
    Except String (Nat × List Char) :=
  match fuel with
  | 0 => .error "json.JSONDecodeError: out of fuel"
  | fuel + 1 =>
    match cs with
    | c :: rest =>
      if '0' ≤ c ∧ c ≤ '9' then parseJsonDigits fuel rest (acc * 10 + (c.toNat - 48)) true
      else if seen then .ok (acc, cs)
      else .error "json.JSONDecodeError: expecting value"
    | [] => if seen then .ok (acc, []) else .error "json.JSONDecodeError: expecting value"

mutual
/-- Model of the recursive descent in CPython's `json.loads` (integers,
strings, booleans, `null`, arrays, objects; floats are outside the model
because the repository's metadata contains none). -/
def parseJsonValue (fuel : Nat) (cs : List Char) : Except String (Json × List Char) :=
  match fuel with
  | 0 => .error "json.JSONDecodeError: out of fuel"
  | fuel + 1 =>
    match jsonSkipWs cs with
    | 'n' :: 'u' :: 'l' :: 'l' :: rest => .ok (.null, rest)
    | 't' :: 'r' :: 'u' :: 'e' :: rest => .ok (.bool true, rest)
    | 'f' :: 'a' :: 'l' :: 's' :: 'e' :: rest => .ok (.bool false, rest)
    | '"' :: rest => (parseJsonString fuel rest).map (fun p => (.str p.1, p.2))
    | '[' :: rest =>
      (match jsonSkipWs rest with
       | ']' :: rest' => .ok (.arr [], rest')
       | other => (parseJsonArr fuel other).map (fun p => (.arr p.1, p.2)))
    | '\x7b' :: rest =>
      (match jsonSkipWs rest with
       | '\x7d' :: rest' => .ok (.obj [], rest')
       | other => (parseJsonObj fuel other).map (fun p => (.obj p.1, p.2)))
    | '-' :: rest =>
      (parseJsonDigits fuel rest 0 false).map (fun p => (.num (-(p.1 : Int)), p.2))
    | c :: rest =>
      if '0' ≤ c ∧ c ≤ '9' then
        (parseJsonDigits fuel (c :: rest) 0 false).map (fun p => (.num (p.1 : Int), p.2))
      else .error "json.JSONDecodeError: expecting value"
    | [] => .error "json.JSONDecodeError: expecting value"

def parseJsonArr (fuel : Nat) (cs : List Char) : Except String (List Json × List Char) :=
  match fuel with
  | 0 => .error "json.JSONDecodeError: out of fuel"
  | fuel + 1 =>
    match parseJsonValue fuel cs with
    | .error e => .error e
    | .ok (v, rest) =>
      match jsonSkipWs rest with
      | ',' :: rest' => (parseJsonArr fuel rest').map (fun p => (v :: p.1, p.2))
      | ']' :: rest' => .ok ([v], rest')
      | _ => .error "json.JSONDecodeError: expecting comma or bracket"

def parseJsonObj (fuel : Nat) (cs : List Char) : Except String (List (String × Json) × List Char) :=
  match fuel with
  | 0 => .error "json.JSONDecodeError: out of fuel"
  | fuel + 1 =>
    match jsonSkipWs cs with
    | '"' :: rest =>
      match parseJsonString fuel rest with
      | .error e => .error e
      | .ok (k, rest1) =>
        match jsonSkipWs rest1 with
        | ':' :: rest2 =>
          match parseJsonValue fuel rest2 with
          | .error e => .error e
          | .ok (v, rest3) =>
            match jsonSkipWs rest3 with
            | ',' :: rest4 => (parseJsonObj fuel rest4).map (fun p => ((k, v) :: p.1, p.2))
            | '\x7d' :: rest4 => .ok ([(k, v)], rest4)
            | _ => .error "json.JSONDecodeError: expecting comma or brace"
        | _ => .error "json.JSONDecodeError: expecting colon"
    | _ => .error "json.JSONDecodeError: expecting property name"
end

/-- Model of Python's `json.loads`. -/
def json_loads (s : String) : Except String Json :=
  match parseJsonValue (s.data.length + 1) s.data with
  | .error e => .error e
  | .ok (v, rest) =>
    if jsonSkipWs rest = [] then .ok v
    else .error "json.JSONDecodeError: extra data"

/-! ## `CheckInventory`

The inventory is the nested dictionary documented on the class:
`provider → service → {description, code, checks}` where each check id maps
to `{metadata, code, fixer}` (all three stored as packed blobs).  Methods
that mutate `self._inventory` are modelled as functions returning the new
inventory; a raised `KeyError` is an `Except.error`. -/

structure CheckRecord where
  metadata : String
  code : String
  fixer : String
deriving DecidableEq, Repr

structure ServiceEntry where
  description : String
  code : String
  checks : List (String × CheckRecord)
deriving DecidableEq, Repr

abbrev Inventory := List (String × List (String × ServiceEntry))

/-- The empty check record inserted by the sync methods
(`{"metadata": "", "code": "", "fixer": ""}`). -/
def emptyCheckRecord : CheckRecord := { metadata := "", code := "", fixer := "" }

/-- `d[k]` where a missing key raises `KeyError`. -/
def keyErr {α : Type} (o : Option α) (k : String) : Except String α :=
  match o with
  | some v => .ok v
  | none => .error ("KeyError: " ++ k)

/-- `CheckInventory.get_available_providers` (a set in Python; the key list
here — only membership is ever used). -/
def get_available_providers (inv : Inventory) : List String := dkeys inv

/-- `CheckInventory.get_available_services_in_provider`. -/
def get_available_services_in_provider (inv : Inventory) (provider_name : String) :
    List String :=
  dkeys ((dget inv provider_name).getD [])

/-- The nested lookup `inv.get(p, {}).get(s, {})`. -/
def lookup_service (inv : Inventory) (provider service : String) : Option ServiceEntry :=
  match dget inv provider with
  | none => none
  | some svcs => dget svcs service

/-- The nested lookup down to one check record. -/
def lookup_check (inv : Inventory) (provider service check_id : String) :
    Option CheckRecord :=
  match lookup_service inv provider service with
  | none => none
  | some entry => dget entry.checks check_id

/-- `CheckInventory.get_available_checks_in_service`:
`inv.get(p, {}).get(s, {}).get("checks", {}).keys()`. -/
def get_available_checks_in_service (inv : Inventory) (provider_name service_name : String) :
    List String :=
  dkeys (((lookup_service inv provider_name service_name).map ServiceEntry.checks).getD [])

/-- `CheckInventory.get_service_code`: decode-on-read of
`inv.get(p, {}).get(s, {}).get("code", "")`. -/
def get_service_code (inv : Inventory) (provider service : String) : Except String String :=
  _get_data_format_for_storage
    (((lookup_service inv provider service).map ServiceEntry.code).getD "")

/-- `CheckInventory.get_check_code`. -/
def get_check_code (inv : Inventory) (provider service check_id : String) :
    Except String String :=
  _get_data_format_for_storage
    (((lookup_check inv provider service check_id).map CheckRecord.code).getD "")

/-- `CheckInventory.get_check_fixer`. -/
def get_check_fixer (inv : Inventory) (provider service check_id : String) :
    Except String String :=
  _get_data_format_for_storage
    (((lookup_check inv provider service check_id).map CheckRecord.fixer).getD "")

/-- `CheckInventory.get_check_metadata`: decode the stored blob, then
`json.loads` it unless it is empty, in which case return `{}`. -/
def get_check_metadata (inv : Inventory) (provider service check_id : String) :
    Except String Json :=
  (_get_data_format_for_storage
      (((lookup_check inv provider service check_id).map CheckRecord.metadata).getD "")).bind
    (fun metadata_str =>
      if metadata_str ≠ "" then json_loads metadata_str else .ok (Json.obj []))

/-- Model of `prowler_studio.core.rag.utils.read_file` on a file modelled as
`Option String` (its content when it exists): missing files raise
`FileNotFoundError`. -/
def read_file (file : Option String) : Except String String :=
  match file with
  | some content => .ok content
  | none => .error "FileNotFoundError"

/-- `read_file` with `json_load=True`. -/
def read_file_json (file : Option String) : Except String Json :=
  match file with
  | some content => json_loads content
  | none => .error "FileNotFoundError"

/-- Replace one check record under an (existing) provider and service. -/
def set_check_record (inv : Inventory) (provider service check_id : String)
    (svcs : List (String × ServiceEntry)) (entry : ServiceEntry) (rec : CheckRecord) :
    Inventory :=
  dset inv provider (dset svcs service { entry with checks := dset entry.checks check_id rec })

/-- `CheckInventory.update_check_metadata`.  The `mtime` argument is the
wall-clock time at which `_prepare_data_for_storage` runs.  Mirrors the
source statement for statement: nothing happens when the file is missing;
`self._inventory[provider][service]["checks"]` raises `KeyError` when the
provider or service node is absent; a missing check id gets an empty
skeleton; then read, compare (`!=` on parsed dictionaries), store
`json.dumps` of the fresh content and report `True` only on difference. -/
def update_check_metadata (mtime : Nat) (inv : Inventory)
    (provider service check_id : String) (file : Option String) :
    Except String (Inventory × Bool) :=
  if file.isSome then do
    let svcs ← keyErr (dget inv provider) provider
    let entry ← keyErr (dget svcs service) service
    let inv1 : Inventory :=
      if (dget entry.checks check_id).isNone then
        set_check_record inv provider service check_id svcs entry emptyCheckRecord
      else inv
    let repo_content ← read_file_json file
    let stored ← get_check_metadata inv1 provider service check_id
    if jsonEq repo_content stored then
      .ok (inv1, false)
    else do
      let svcs1 ← keyErr (dget inv1 provider) provider
      let entry1 ← keyErr (dget svcs1 service) service
      let rec1 ← keyErr (dget entry1.checks check_id) check_id
      .ok (set_check_record inv1 provider service check_id svcs1 entry1
        { rec1 with metadata := _prepare_data_for_storage mtime (json_dumps repo_content) },
        true)
  else .ok (inv, false)

/-- `CheckInventory.update_check_code` (same shape as
`update_check_metadata`, on raw text). -/
def update_check_code (mtime : Nat) (inv : Inventory)
    (provider service check_id : String) (file : Option String) :
    Except String (Inventory × Bool) :=
  if file.isSome then do
    let svcs ← keyErr (dget inv provider) provider
    let entry ← keyErr (dget svcs service) service
    let inv1 : Inventory :=
      if (dget entry.checks check_id).isNone then
        set_check_record inv provider service check_id svcs entry emptyCheckRecord
      else inv
    let repo_content ← read_file file
    let stored ← get_check_code inv1 provider service check_id
    if repo_content = stored then
      .ok (inv1, false)
    else do
      let svcs1 ← keyErr (dget inv1 provider) provider
      let entry1 ← keyErr (dget svcs1 service) service
      let rec1 ← keyErr (dget entry1.checks check_id) check_id
      .ok (set_check_record inv1 provider service check_id svcs1 entry1
        { rec1 with code := _prepare_data_for_storage mtime repo_content },
        true)
  else .ok (inv, false)

/-- `CheckInventory.update_check_fixer`.  Unlike the metadata and code
variants, the source has **no** skeleton-creation step: when the check id
is new and the file content differs from the stored default `""`, the
assignment `self._inventory[provider][service]["checks"][check_id]["fixer"]`
raises `KeyError`. -/
def update_check_fixer (mtime : Nat) (inv : Inventory)
    (provider service check_id : String) (file : Option String) :
    Except String (Inventory × Bool) :=
  if file.isSome then do
    let repo_content ← read_file file
    let stored ← get_check_fixer inv provider service check_id
    if repo_content = stored then
      .ok (inv, false)
    else do
      let svcs ← keyErr (dget inv provider) provider
      let entry ← keyErr (dget svcs service) service
      let rec1 ← keyErr (dget entry.checks check_id) check_id
      .ok (set_check_record inv provider service check_id svcs entry
        { rec1 with fixer := _prepare_data_for_storage mtime repo_content },
        true)
  else .ok (inv, false)

/-- `CheckInventory.delete_provider`: `del` caught by `except KeyError`. -/
def delete_provider (inv : Inventory) (provider : String) : Inventory × Bool :=
  match dget inv provider with
  | some _ => (ddel inv provider, true)
  | none => (inv, false)

/-- `CheckInventory.delete_service`. -/
def delete_service (inv : Inventory) (provider service : String) : Inventory × Bool :=
  match dget inv provider with
  | none => (inv, false)
  | some svcs =>
    match dget svcs service with
    | none => (inv, false)
    | some _ => (dset inv provider (ddel svcs service), true)

/-- `CheckInventory.delete_check`:
`del self._inventory[provider][check_id.split("_")[0]]["checks"][check_id]`,
with any `KeyError` converted to `False`.  The service node is derived from
the check id's first-underscore prefix, not passed by the caller. -/
def delete_check (inv : Inventory) (provider check_id : String) : Inventory × Bool :=
  match dget inv provider with
  | none => (inv, false)
  | some svcs =>
    match dget svcs (service_of_check_id check_id) with
    | none => (inv, false)
    | some entry =>
      match dget entry.checks check_id with
      | none => (inv, false)
      | some _ =>
        (dset inv provider (dset svcs (service_of_check_id check_id)
          { entry with checks := ddel entry.checks check_id }), true)

/-! ## The deletion sweep of `CheckMetadataVectorStore`

`_load_deleted_checks_from_local_repo` walks the inventory's own keys and
tests each against the source tree.  The source tree is modelled by three
existence oracles, one per path shape
(`prowler/providers/{p}`, `.../{p}/services/{s}`, `.../{s}/{check_id}`).
Python iterates snapshot `set`s; the model iterates the key lists (the
reported list's order is iteration-order dependent in Python too; the
claims below only count occurrences). -/

structure RepoFS where
  providerExists : String → Bool
  serviceExists : String → String → Bool
  checkExists : String → String → String → Bool

/-- The composite document id `f"{provider}_{check_id}"`. -/
def composite_id (provider check_id : String) : String := provider ++ "_" ++ check_id

/-- Body of the innermost loop: one check of an existing provider/service. -/
def sweep_check (fs : RepoFS) (provider service : String)
    (st : Inventory × List String) (check_id : String) : Inventory × List String :=
  if fs.checkExists provider service check_id then st
  else
    ((delete_check st.1 provider check_id).1, st.2 ++ [composite_id provider check_id])

/-- Body of the middle loop: one service of an existing provider. -/
def sweep_service (fs : RepoFS) (provider : String)
    (st : Inventory × List String) (service : String) : Inventory × List String :=
  if fs.serviceExists provider service then
    (get_available_checks_in_service st.1 provider service).foldl
      (sweep_check fs provider service) st
  else
    ((delete_service st.1 provider service).1,
      st.2 ++ (get_available_checks_in_service st.1 provider service).map
        (composite_id provider))

/-- Body of the outer loop: one provider key of the inventory. -/
def sweep_provider (fs : RepoFS) (st : Inventory × List String) (provider : String) :
    Inventory × List String :=
  if fs.providerExists provider then
    (get_available_services_in_provider st.1 provider).foldl (sweep_service fs provider) st
  else
    ((delete_provider st.1 provider).1,
      st.2 ++ (get_available_services_in_provider st.1 provider).flatMap
        (fun service =>
          (get_available_checks_in_service st.1 provider service).map
            (composite_id provider)))

/-- `CheckMetadataVectorStore._load_deleted_checks_from_local_repo`: the
final inventory and the list of deleted composite ids. -/
def _load_deleted_checks_from_local_repo (fs : RepoFS) (inv : Inventory) :
    Inventory × List String :=
  (get_available_providers inv).foldl (sweep_provider fs) (inv, [])

/-! ## The check-creation workflow: fan-in join and metadata retry loop -/

/-- `CheckMetadataResult` (carries the generated metadata object). -/
structure CheckMetadataResultE where
  check_metadata : Json
deriving Repr

/-- `CheckCodeResult`. -/
structure CheckCodeResultE where
  check_code : String
  modified_service_code : String
deriving Repr

/-- `CheckCreationResult` (the terminal `StopEvent` of the workflow). -/
structure CheckCreationResultE where
  status_code : Nat
  user_answer : Option String := none
  check_metadata : Option Json := none
  check_code : Option String := none
  check_path : Option String := none
  generic_remediation : Option String := none
  service_code : Option String := none
  error_message : Option String := none
deriving Repr

/-- The two event types `check_return` can be triggered by. -/
inductive JoinEvent where
  | metadata (m : CheckMetadataResultE)
  | code (c : CheckCodeResultE)
deriving Repr

/-- The per-step event buffer that llama-index's `Context` keeps for
`collect_events`, one queue per expected event type. -/
structure JoinBuffer where
  metadataEvs : List CheckMetadataResultE
  codeEvs : List CheckCodeResultE
deriving Repr

/-- Model of llama-index's `Context.collect_events(ev, [CheckMetadataResult,
CheckCodeResult])` (external library): append the incoming event to its
type's queue; if one event of every requested type is buffered, pop and
return them in the requested order, otherwise return `None` and keep
everything buffered. -/
def collect_events (buf : JoinBuffer) (ev : JoinEvent) :
    JoinBuffer × Option (CheckMetadataResultE × CheckCodeResultE) :=
  let buf1 :=
    match ev with
    | .metadata m => { buf with metadataEvs := buf.metadataEvs ++ [m] }
    | .code c => { buf with codeEvs := buf.codeEvs ++ [c] }
  match buf1.metadataEvs, buf1.codeEvs with
  | m :: ms, c :: cs => ({ metadataEvs := ms, codeEvs := cs }, some (m, c))
  | _, _ => (buf1, none)

/-- The external calls `check_return` makes after the join: the two LLM
completions and `difflib.unified_diff`, as oracle functions. -/
structure FinalizeOracles where
  prettify : Json → String → String → String → String
  remediation : String → String
  unifiedDiff : String → String → String

/-- `ChecKreationWorkflow.check_return`: collect the two branch results; if
only one has arrived, return `None` (the event stays buffered); once both
are present, compute the optional service diff and produce the terminal
status-0 result.  `check_path` is the context value set by
`user_input_analysis`; `inv` is the check inventory behind the vector
store.  Any exception in the body becomes a status-2 result. -/
def check_return (o : FinalizeOracles) (inv : Inventory) (check_path : String)
    (buf : JoinBuffer) (ev : JoinEvent) :
    JoinBuffer × Option CheckCreationResultE :=
  let (buf1, check) := collect_events buf ev
  match check with
  | none => (buf1, none)
  | some (md, cd) =>
    let body : Except String CheckCreationResultE := do
      let service_code := cd.modified_service_code
      let code_diff ←
        if service_code ≠ "" then do
          let provider ← keyErr ((pySplit '/' check_path).get? 2) "check_path[2]"
          let service ← keyErr ((pySplit '/' check_path).get? 4) "check_path[4]"
          let original_service_code ← get_service_code inv provider service
          .ok (o.unifiedDiff original_service_code service_code)
        else .ok ""
      let final_answer := o.prettify md.check_metadata cd.check_code code_diff check_path
      let remediation := o.remediation final_answer
      .ok { status_code := 0
            user_answer := some final_answer
            check_metadata := some md.check_metadata
            check_code := some cd.check_code
            check_path := some check_path
            generic_remediation := some remediation
            service_code :=
              if cd.modified_service_code ≠ "" then some cd.modified_service_code else none }
    match body with
    | .ok r => (buf1, some r)
    | .error e =>
      let r : CheckCreationResultE :=
        { status_code := 2,
          error_message := some ("An error occurred while returning the check: " ++ e) }
      (buf1, some r)

/-- Run `check_return` over a sequence of incoming events, starting from an
empty buffer, collecting every terminal result it produces. -/
def run_check_return (o : FinalizeOracles) (inv : Inventory) (check_path : String)
    (evs : List JoinEvent) : JoinBuffer × List CheckCreationResultE :=
  evs.foldl
    (fun st ev =>
      let (buf1, r) := check_return o inv check_path st.1 ev
      (buf1, st.2 ++ r.toList))
    ({ metadataEvs := [], codeEvs := [] }, [])

/-- Outcome of one `Settings.llm.astructured_predict` call: the parsed
`CheckMetadata` object, or a raised exception. -/
def AttemptOracle := Nat → Except String Json

/-- The retry loop of `ChecKreationWorkflow.create_check_metadata`, verbatim
from the source:

    for i in range(MAX_STRUCTURED_ATTEMPS):
        try:
            check_metadata = await Settings.llm.astructured_predict(...)
            if "validation error" in check_metadata:
                raise ValueError(...)
        except Exception as e:
            sleep(5)
            if i == MAX_STRUCTURED_ATTEMPS - 1:
                raise e

`attempts i` is what the `i`-th prediction returns; `hasVE` models the
`"validation error" in check_metadata` containment test.  The result is
what the loop leaves bound to `check_metadata` (or the re-raised final
exception), paired with how many prediction calls were made. -/
def metadata_attempt_loop (attempts : AttemptOracle) (hasVE : Json → Bool)
    (maxAttempts : Nat) : Except String Json × Nat :=
  go 0 maxAttempts none
where
  go (i fuel : Nat) (cur : Option Json) : Except String Json × Nat :=
    match fuel with
    | 0 =>
      (match cur with
       | some v => .ok v
       | none => .error "UnboundLocalError: check_metadata", 0)
    | fuel + 1 =>
      let outcome : Except String Json :=
        match attempts i with
        | .ok v =>
          if hasVE v then
            .error "Internal error creating check metadata. Please try again later."
          else .ok v
        | .error e => .error e
      match outcome with
      | .ok v =>
        let (r, n) := go (i + 1) fuel (some v)
        (r, n + 1)
      | .error e =>
        if fuel = 0 then (.error e, 1)
        else
          let (r, n) := go (i + 1) fuel cur
          (r, n + 1)

/-- `create_check_metadata`'s outer exception handler: a loop that ends with
`check_metadata` bound produces `CheckMetadataResult(check_metadata)`; a
re-raised exception is converted to a status-2 `CheckCreationResult`. -/
def create_check_metadata (attempts : AttemptOracle) (hasVE : Json → Bool) :
    (CheckMetadataResultE ⊕ CheckCreationResultE) × Nat :=
  match metadata_attempt_loop attempts hasVE 5 with
  | (.ok v, n) => (.inl { check_metadata := v }, n)
  | (.error e, n) =>
    let r : CheckCreationResultE :=
      { status_code := 2,
        error_message := some ("An error occurred while creating the check metadata: " ++ e) }
    (.inr r, n)

/-! ## The fixer-creation workflow

Each of the three stages wraps its whole body in `try/except Exception`;
the `except` branch of every stage returns a terminal
`FixerCreationResult` with `status_code=1` and a generic user-facing
message.  LLM calls are oracle parameters (an `Except` models a call that
may itself raise). -/

structure FixerCreationResultE where
  status_code : Nat
  user_answer : Option String := none
  fixer_code : Option String := none
  fixer_path : Option String := none
  error_message : Option String := none
deriving Repr, DecidableEq

structure FixerBasicInformationE where
  check_description : String
  check_code : String
  check_id : String
deriving Repr, DecidableEq

structure FixerCodeResultE where
  fixer_code : String
  file_path : String
deriving Repr, DecidableEq

/-- `FixerCreationWorkflow.workflow_setup`: provider gate, check-id
existence gate, metadata/code fetch, `check_metadata["Description"]`
access; every raised exception is converted to a status-1 terminal
result. -/
def fixer_workflow_setup (inv : Inventory) (prowler_provider check_id : String) :
    FixerCreationResultE ⊕ FixerBasicInformationE :=
  let body : Except String FixerBasicInformationE :=
    if prowler_provider = "aws" then
      if check_id ∈ get_available_checks_in_service inv prowler_provider
          (service_of_check_id check_id) then do
        let check_metadata ← get_check_metadata inv prowler_provider
          (service_of_check_id check_id) check_id
        let check_code ← get_check_code inv prowler_provider
          (service_of_check_id check_id) check_id
        let check_description ←
          match check_metadata with
          | Json.obj fields =>
            (match dget fields "Description" with
             | some (Json.str d) => Except.ok d
             | some _ => Except.error "pydantic.ValidationError: check_description"
             | none => Except.error "KeyError: Description")
          | _ => Except.error "TypeError: check_metadata is not a dict"
        Except.ok { check_description := check_description
                    check_code := check_code
                    check_id := check_id }
      else
        Except.error ("The check_id " ++ check_id ++
          " does not exist in the inventory. Try to rebuild the RAG database with the latest Prowler repository.")
    else
      Except.error
        "Invalid prowler provider, for now is only supported aws. Sorry for the inconvenience, we are working to add more providers soon."
  match body with
  | .ok ev => .inr ev
  | .error msg =>
    .inl { status_code := 1
           user_answer := some "An error occurred while processing the user input. Please try again."
           error_message := some msg }

/-- `FixerCreationWorkflow.create_fixer_code`: one LLM completion (the
oracle's `Except` outcome), building the fixer path from the check id's
service prefix; exceptions become status-1 terminal results. -/
def create_fixer_code (llmOutcome : Except String String)
    (ev : FixerBasicInformationE) : FixerCreationResultE ⊕ FixerCodeResultE :=
  let service_name := service_of_check_id ev.check_id
  let body : Except String FixerCodeResultE := do
    let fixer_code ← llmOutcome
    Except.ok { fixer_code := fixer_code
                file_path := "prowler/providers/aws/services/" ++ service_name ++ "/" ++
                  ev.check_id ++ "/" ++ ev.check_id ++ "_fixer.py" }
  match body with
  | .ok r => .inr r
  | .error msg =>
    .inl { status_code := 1
           user_answer := some "An error occurred while generating the fixer code. Please try again."
           error_message := some msg }

/-- `FixerCreationWorkflow.fixer_return`: the prettifying LLM completion
(oracle outcome); success is the status-0 terminal result, an exception a
status-1 terminal result. -/
def fixer_return (llmOutcome : Except String String) (ev : FixerCodeResultE) :
    FixerCreationResultE :=
  let body : Except String FixerCreationResultE := do
    let final_answer ← llmOutcome
    Except.ok { status_code := 0
                user_answer := some final_answer
                fixer_code := some ev.fixer_code
                fixer_path := some ev.file_path }
  match body with
  | .ok r => r
  | .error msg =>
    { status_code := 1
      user_answer := some "An error occurred while returning the fixer creation result. Please try again."
      error_message := some msg }

/-! ## Supporting lemmas for the claim theorems -/

theorem unpack_empty : _get_data_format_for_storage "" = .ok "" := rfl

theorem keyErr_some {α : Type} (v : α) (k : String) : keyErr (some v) k = .ok v := rfl

theorem keyErr_none {α : Type} (k : String) :
    keyErr (none : Option α) k = .error ("KeyError: " ++ k) := rfl

theorem ebind_ok {α β : Type} (a : α) (f : α → Except String β) :
    (Except.ok a : Except String α) >>= f = f a := rfl

theorem ebind_error {α β : Type} (e : String) (f : α → Except String β) :
    (Except.error e : Except String α) >>= f = .error e := rfl

theorem lookup_check_set_check_record_self (inv : Inventory) (p s cid : String)
    (svcs : List (String × ServiceEntry)) (entry : ServiceEntry) (rec : CheckRecord) :
    lookup_check (set_check_record inv p s cid svcs entry rec) p s cid = some rec := by
  simp [lookup_check, lookup_service, set_check_record, dget_dset_self]

/-! ## Claim theorems -/

/-- Claim C1: a lookup of an absent entry is not an error: with the service
node absent `get_service_code` returns `""`, and with the check record
absent (under an absent or present service) `get_check_code` and
`get_check_fixer` return `""` and `get_check_metadata` returns the empty
dictionary — all without raising. -/
theorem claim_C1_absent_reads_are_empty (inv : Inventory) (p s cid : String) :
    (lookup_service inv p s = none → get_service_code inv p s = .ok "") ∧
    (lookup_check inv p s cid = none →
      get_check_code inv p s cid = .ok "" ∧
      get_check_fixer inv p s cid = .ok "" ∧
      get_check_metadata inv p s cid = .ok (Json.obj [])) := by
  constructor
  · intro hs
    simp [get_service_code, hs, unpack_empty]
  · intro hc
    refine ⟨?_, ?_, ?_⟩
    · simp [get_check_code, hc, unpack_empty]
    · simp [get_check_fixer, hc, unpack_empty]
    · simp only [get_check_metadata, hc, Option.map_none, Option.getD_none, unpack_empty]
      rfl

/-- Witness for C1 at a concrete inventory: provider `aws` with service
`s3` holding one check; the service `ec2` and the check id `s3_zzz` are
absent. -/
def invC1 : Inventory :=
  [("aws", [("s3", ServiceEntry.mk "" "" [("s3_x", CheckRecord.mk "" "" "")])])]

theorem claim_C1_witness :
    get_service_code invC1 "aws" "ec2" = .ok "" ∧
    get_check_code invC1 "aws" "s3" "s3_zzz" = .ok "" ∧
    get_check_fixer invC1 "aws" "s3" "s3_zzz" = .ok "" ∧
    get_check_metadata invC1 "aws" "s3" "s3_zzz" = .ok (Json.obj []) :=
  ⟨(claim_C1_absent_reads_are_empty invC1 "aws" "ec2" "s3_zzz").1 (by decide),
   ((claim_C1_absent_reads_are_empty invC1 "aws" "s3" "s3_zzz").2 (by decide)).1,
   ((claim_C1_absent_reads_are_empty invC1 "aws" "s3" "s3_zzz").2 (by decide)).2.1,
   ((claim_C1_absent_reads_are_empty invC1 "aws" "s3" "s3_zzz").2 (by decide)).2.2⟩

/-- Claim C2: for every wall-clock reading at pack time and every string
`t` (the empty string included), unpacking the packed blob returns exactly
`t`. -/
theorem claim_C2_roundtrip (mtime : Nat) (t : String) :
    _get_data_format_for_storage (_prepare_data_for_storage mtime t) = .ok t :=
  unpack_pack mtime t

/-- Counterexample to claim C9 as stated: two invocations of
`_prepare_data_for_storage` on the same text at different wall-clock times
("at different times or in different runs") produce different blobs,
because `gzip.compress` writes the current time into the header's MTIME
field. -/
theorem claim_C9_counterexample :
    _prepare_data_for_storage 0 "a" ≠ _prepare_data_for_storage 1 "a" := by decide

/-- Claim C9 amended: pack is deterministic except for the gzip header's
MTIME field (bytes 4..8): for any two invocation times the produced
pre-base64 streams agree on the magic/method/flags bytes before it and on
everything after it, and unpacking either blob yields the same result. -/
theorem claim_C9_amended (m1 m2 : Nat) (t : String) :
    (gzip_compress m1 (utf8Encode t)).take 4 = (gzip_compress m2 (utf8Encode t)).take 4 ∧
    (gzip_compress m1 (utf8Encode t)).drop 8 = (gzip_compress m2 (utf8Encode t)).drop 8 ∧
    _get_data_format_for_storage (_prepare_data_for_storage m1 t) =
      _get_data_format_for_storage (_prepare_data_for_storage m2 t) := by
  refine ⟨?_, ?_, ?_⟩
  · rw [gzip_compress_shape, gzip_compress_shape]
    rfl
  · rw [gzip_compress_shape, gzip_compress_shape]
    rfl
  · rw [unpack_pack, unpack_pack]

/-- The inventory refuting claim C10 as stated: provider `aws` stores the
check id `s3_x` both under the service `weird` (whose name is not the id's
underscore prefix) and under the service `s3` (which is). -/
def invC10 : Inventory :=
  [("aws", [("weird", ServiceEntry.mk "" "" [("s3_x", CheckRecord.mk "" "" "")]),
            ("s3", ServiceEntry.mk "" "" [("s3_x", CheckRecord.mk "" "" "")])])]

/-- Counterexample to claim C10 as stated: for the check `s3_x` stored
under service `weird` (not its prefix), `delete_check` does **not** return
`False` and leave the inventory unchanged — the prefix-named service `s3`
also holds the id, so the call returns `True` and deletes that other
entry. -/
theorem claim_C10_counterexample :
    (delete_check invC10 "aws" "s3_x").2 = true ∧
    lookup_check (delete_check invC10 "aws" "s3_x").1 "aws" "s3" "s3_x" = none ∧
    lookup_check (delete_check invC10 "aws" "s3_x").1 "aws" "weird" "s3_x" ≠ none := by
  refine ⟨rfl, rfl, ?_⟩
  decide

/-- Claim C10 amended: `delete_check` resolves the service node as the
substring of the check id before the first underscore; if that prefix
service does not hold the check id (in particular whenever the check is
stored only under a service that is not the prefix), the call returns
`False` and the inventory is returned entirely unchanged. -/
theorem claim_C10_amended (inv : Inventory) (p cid : String)
    (h : lookup_check inv p (service_of_check_id cid) cid = none) :
    delete_check inv p cid = (inv, false) := by
  rw [lookup_check, lookup_service] at h
  unfold delete_check
  cases hp : dget inv p with
  | none => simp [hp]
  | some svcs =>
    simp only [hp] at h ⊢
    cases hs : dget svcs (service_of_check_id cid) with
    | none => simp [hs]
    | some entry =>
      simp only [hs] at h ⊢
      simp [h]

/-- Witness for the amended C10: the check `s3_x` lives only under service
`weird`, so `delete_check` is a no-op returning `False`. -/
def invC10W : Inventory :=
  [("aws", [("weird", ServiceEntry.mk "" "" [("s3_x", CheckRecord.mk "" "" "")])])]

theorem claim_C10_amended_witness :
    delete_check invC10W "aws" "s3_x" = (invC10W, false) :=
  claim_C10_amended invC10W "aws" "s3_x" (by decide)

/-- The inventory refuting claim C8 as stated: provider `aws` and service
`s3` exist but hold no checks. -/
def invC8 : Inventory := [("aws", [("s3", ServiceEntry.mk "" "" [])])]

/-- Counterexample to claim C8 as stated: `update_check_fixer`, called for
a check id that is not yet present under an existing provider/service
while the source file exists (with content differing from the empty
default), does **not** auto-create a skeleton and return a flag — it
raises `KeyError`. -/
theorem claim_C8_counterexample :
    update_check_fixer 0 invC8 "aws" "s3" "s3_new" (some "def s3_new_fixer(): pass") =
      .error "KeyError: s3_new" := rfl

/-- Claim C8 amended: `update_check_metadata` and `update_check_code`
auto-create the empty `CheckRecord` skeleton for a new check id under an
existing provider/service and return a changed flag without raising;
`update_check_fixer` has no such skeleton step and instead raises
`KeyError` whenever the new check's file content differs from the stored
default `""`. -/
theorem claim_C8_amended (mtime : Nat) (inv : Inventory) (p s cid : String)
    (svcs : List (String × ServiceEntry)) (entry : ServiceEntry)
    (fc : String) (v : Json)
    (hp : dget inv p = some svcs) (hs : dget svcs s = some entry)
    (hc : dget entry.checks cid = none)
    (hparse : json_loads fc = .ok v)
    (hfc : fc ≠ "") :
    (∃ inv' b, update_check_metadata mtime inv p s cid (some fc) = .ok (inv', b) ∧
      lookup_check inv' p s cid ≠ none) ∧
    (∃ inv' b, update_check_code mtime inv p s cid (some fc) = .ok (inv', b) ∧
      lookup_check inv' p s cid ≠ none) ∧
    update_check_fixer mtime inv p s cid (some fc) = .error ("KeyError: " ++ cid) := by
  have hlk1 : lookup_check
      (set_check_record inv p s cid svcs entry emptyCheckRecord) p s cid =
      some emptyCheckRecord :=
    lookup_check_set_check_record_self inv p s cid svcs entry emptyCheckRecord
  refine ⟨?_, ?_, ?_⟩
  · rw [update_check_metadata]
    simp only [Option.isSome_some, if_true, hp, keyErr_some, ebind_ok, hs, hc,
      Option.isNone_none]
    rw [show read_file_json (some fc) = json_loads fc from rfl, hparse]
    simp only [ebind_ok]
    rw [show get_check_metadata (set_check_record inv p s cid svcs entry emptyCheckRecord)
        p s cid = .ok (Json.obj []) by
      simp only [get_check_metadata, hlk1]
      rfl]
    simp only [ebind_ok]
    by_cases hje : jsonEq v (Json.obj []) = true
    · rw [if_pos hje]
      exact ⟨_, _, rfl, by rw [hlk1]; simp⟩
    · rw [if_neg hje]
      have hp1 : dget (set_check_record inv p s cid svcs entry emptyCheckRecord) p =
          some (dset svcs s { entry with checks := dset entry.checks cid emptyCheckRecord }) := by
        simp [set_check_record, dget_dset_self]
      rw [hp1, keyErr_some, ebind_ok, dget_dset_self, keyErr_some, ebind_ok,
        dget_dset_self, keyErr_some, ebind_ok]
      refine ⟨_, _, rfl, ?_⟩
      rw [lookup_check_set_check_record_self]
      simp
  · rw [update_check_code]
    simp only [Option.isSome_some, if_true, hp, keyErr_some, ebind_ok, hs, hc,
      Option.isNone_none]
    rw [show read_file (some fc) = .ok fc from rfl]
    simp only [ebind_ok]
    rw [show get_check_code (set_check_record inv p s cid svcs entry emptyCheckRecord)
        p s cid = .ok "" by
      simp only [get_check_code, hlk1]
      rfl]
    simp only [ebind_ok]
    rw [if_neg hfc]
    have hp1 : dget (set_check_record inv p s cid svcs entry emptyCheckRecord) p =
        some (dset svcs s { entry with checks := dset entry.checks cid emptyCheckRecord }) := by
      simp [set_check_record, dget_dset_self]
    rw [hp1, keyErr_some, ebind_ok, dget_dset_self, keyErr_some, ebind_ok,
      dget_dset_self, keyErr_some, ebind_ok]
    refine ⟨_, _, rfl, ?_⟩
    rw [lookup_check_set_check_record_self]
    simp
  · rw [update_check_fixer]
    simp only [Option.isSome_some, if_true]
    rw [show read_file (some fc) = .ok fc from rfl]
    simp only [ebind_ok]
    rw [show get_check_fixer inv p s cid = .ok "" by
      simp only [get_check_fixer, lookup_check, lookup_service, hp, hs, hc]
      rfl]
    simp only [ebind_ok]
    rw [if_neg hfc, hp, keyErr_some, ebind_ok, hs, keyErr_some, ebind_ok, hc, keyErr_none,
      ebind_error]

/-- Witness for the amended C8 at a concrete new check id and metadata
file content `{"A": 1}`. -/
theorem claim_C8_amended_witness :
    ((∃ inv' b, update_check_metadata 7 invC8 "aws" "s3" "s3_new"
        (some "\x7b\"A\": 1\x7d") = .ok (inv', b) ∧
      lookup_check inv' "aws" "s3" "s3_new" ≠ none) ∧
    (∃ inv' b, update_check_code 7 invC8 "aws" "s3" "s3_new"
        (some "\x7b\"A\": 1\x7d") = .ok (inv', b) ∧
      lookup_check inv' "aws" "s3" "s3_new" ≠ none) ∧
    update_check_fixer 7 invC8 "aws" "s3" "s3_new" (some "\x7b\"A\": 1\x7d") =
      .error ("KeyError: " ++ "s3_new")) :=
  claim_C8_amended 7 invC8 "aws" "s3" "s3_new" [("s3", ServiceEntry.mk "" "" [])]
    (ServiceEntry.mk "" "" []) "\x7b\"A\": 1\x7d" (Json.obj [("A", Json.num 1)])
    rfl rfl rfl rfl (by decide)

/-- The attempt oracle exhibiting the C6 bug: the first structured
prediction parses successfully, every later one fails. -/
def attemptsC6 : AttemptOracle :=
  fun i => if i = 0 then .ok (Json.str "valid metadata") else .error "parse failure"

/-- Claim C6 (code bug): with a successful first attempt the loop does
**not** stop — the missing `break` makes it call `astructured_predict` all
5 times, and because the 5th attempt fails the stage re-raises and returns
a status-2 error result instead of emitting the successfully parsed
metadata.  This theorem evaluates the embedded loop at that failing
input. -/
theorem claim_C6_loop_runs_all_attempts :
    metadata_attempt_loop attemptsC6 (fun _ => false) 5 = (.error "parse failure", 5) ∧
    (create_check_metadata attemptsC6 (fun _ => false)).2 = 5 ∧
    (create_check_metadata attemptsC6 (fun _ => false)).1 =
      Sum.inr { status_code := 2
                error_message :=
                  some "An error occurred while creating the check metadata: parse failure" } :=
  ⟨rfl, rfl, rfl⟩

/-- The inventory refuting claim C7 as stated: the check `s3_x` exists but
its stored metadata blob `"x"` is corrupt, so `workflow_setup`'s body
raises an unexpected (non-`ValueError`) exception while decoding it. -/
def invC7 : Inventory :=
  [("aws", [("s3", ServiceEntry.mk "" "" [("s3_x", CheckRecord.mk "x" "" "")])])]

/-- Counterexample to claim C7 as stated: an unexpected exception inside a
fixer-workflow stage is converted to a terminal result with
`status_code = 1`, not `2` — the fixer workflow does not follow the
check-creation workflow's 3-way taxonomy for unexpected errors. -/
theorem claim_C7_counterexample :
    fixer_workflow_setup invC7 "aws" "s3_x" =
      .inl { status_code := 1
             user_answer :=
               some "An error occurred while processing the user input. Please try again."
             error_message :=
               some "Error getting data format for storage: binascii.Error: Invalid base64-encoded string: number of data characters must be a multiple of 4" } := rfl

/-- Claim C7 amended: an exception raised inside any of the three
fixer-workflow stages never escapes — each stage's `except` clause
converts it into a terminal `FixerCreationResult` with `status_code = 1`,
a generic user-facing apology, and the exception text recorded in
`error_message`. -/
theorem claim_C7_amended (inv : Inventory) (cid e : String)
    (ev1 : FixerBasicInformationE) (ev2 : FixerCodeResultE)
    (hin : cid ∈ get_available_checks_in_service inv "aws" (service_of_check_id cid))
    (hmd : get_check_metadata inv "aws" (service_of_check_id cid) cid = .error e) :
    fixer_workflow_setup inv "aws" cid =
      .inl { status_code := 1
             user_answer :=
               some "An error occurred while processing the user input. Please try again."
             error_message := some e } ∧
    create_fixer_code (.error e) ev1 =
      .inl { status_code := 1
             user_answer :=
               some "An error occurred while generating the fixer code. Please try again."
             error_message := some e } ∧
    fixer_return (.error e) ev2 =
      { status_code := 1
        user_answer :=
          some "An error occurred while returning the fixer creation result. Please try again."
        error_message := some e } := by
  refine ⟨?_, rfl, rfl⟩
  rw [fixer_workflow_setup]
  simp only [if_pos rfl, if_pos hin, hmd, ebind_error, if_true]

/-- Witness for the amended C7, instantiated at the corrupt-blob inventory
and a failing LLM call. -/
theorem claim_C7_amended_witness :
    (fixer_workflow_setup invC7 "aws" "s3_x" =
      .inl { status_code := 1
             user_answer :=
               some "An error occurred while processing the user input. Please try again."
             error_message :=
               some "Error getting data format for storage: binascii.Error: Invalid base64-encoded string: number of data characters must be a multiple of 4" } ∧
    create_fixer_code (.error "Error getting data format for storage: binascii.Error: Invalid base64-encoded string: number of data characters must be a multiple of 4")
        (FixerBasicInformationE.mk "d" "c" "s3_x") =
      .inl { status_code := 1
             user_answer :=
               some "An error occurred while generating the fixer code. Please try again."
             error_message :=
               some "Error getting data format for storage: binascii.Error: Invalid base64-encoded string: number of data characters must be a multiple of 4" } ∧
    fixer_return (.error "Error getting data format for storage: binascii.Error: Invalid base64-encoded string: number of data characters must be a multiple of 4")
        (FixerCodeResultE.mk "code" "path") =
      { status_code := 1
        user_answer :=
          some "An error occurred while returning the fixer creation result. Please try again."
        error_message :=
          some "Error getting data format for storage: binascii.Error: Invalid base64-encoded string: number of data characters must be a multiple of 4" }) :=
  claim_C7_amended invC7 "s3_x"
    "Error getting data format for storage: binascii.Error: Invalid base64-encoded string: number of data characters must be a multiple of 4"
    (FixerBasicInformationE.mk "d" "c" "s3_x") (FixerCodeResultE.mk "code" "path")
    (by decide) rfl

theorem dget_some_mem_dkeys {α : Type} (m : List (String × α)) (k : String) (v : α)
    (h : dget m k = some v) : k ∈ dkeys m := by
  induction m with
  | nil => simp [dget] at h
  | cons hd tl ih =>
    obtain ⟨k', v'⟩ := hd
    by_cases hk : k' = k
    · subst hk; simp [dkeys]
    · rw [dget, if_neg hk] at h
      simp only [dkeys, List.map_cons, List.mem_cons]
      exact Or.inr (ih h)

theorem dget_dset_self_ne_none {α : Type} (m : List (String × α)) (k : String) (v : α) :
    dget (dset m k v) k ≠ none := by
  rw [dget_dset_self]
  simp

/-- The nested dictionary facts after `set_check_record` writes a packed
code blob: the check id is listed, reading it back decodes to the stored
text, and a further `update_check_code` with identical file content is a
no-op reporting `False`. -/
theorem set_code_postconditions (mtime : Nat) (inv0 : Inventory) (p s cid c : String)
    (svcs0 : List (String × ServiceEntry)) (entry0 : ServiceEntry) (rec0 : CheckRecord)
    (hp : dget inv0 p = some svcs0) (hs : dget svcs0 s = some entry0)
    (hcode : rec0.code = _prepare_data_for_storage mtime c) :
    cid ∈ get_available_checks_in_service (set_check_record inv0 p s cid svcs0 entry0 rec0) p s ∧
    get_check_code (set_check_record inv0 p s cid svcs0 entry0 rec0) p s cid = .ok c ∧
    ∀ mtime', update_check_code mtime' (set_check_record inv0 p s cid svcs0 entry0 rec0)
      p s cid (some c) = .ok (set_check_record inv0 p s cid svcs0 entry0 rec0, false) := by
  have hpp : dget (set_check_record inv0 p s cid svcs0 entry0 rec0) p =
      some (dset svcs0 s { entry0 with checks := dset entry0.checks cid rec0 }) := by
    simp [set_check_record, dget_dset_self]
  have hss : dget (dset svcs0 s { entry0 with checks := dset entry0.checks cid rec0 }) s =
      some { entry0 with checks := dset entry0.checks cid rec0 } := dget_dset_self _ _ _
  have hcc : dget (dset entry0.checks cid rec0) cid = some rec0 := dget_dset_self _ _ _
  have hlookup : lookup_service (set_check_record inv0 p s cid svcs0 entry0 rec0) p s =
      some { entry0 with checks := dset entry0.checks cid rec0 } := by
    simp only [lookup_service, hpp, hss]
  have hget : get_check_code (set_check_record inv0 p s cid svcs0 entry0 rec0) p s cid =
      .ok c := by
    rw [get_check_code]
    simp only [lookup_check, hlookup, hcc]
    simp only [Option.map_some', Option.getD_some, hcode]
    exact unpack_pack mtime c
  refine ⟨?_, hget, ?_⟩
  · rw [get_available_checks_in_service, hlookup]
    exact dget_some_mem_dkeys _ _ _ hcc
  · intro mtime'
    rw [update_check_code]
    simp only [Option.isSome_some, if_true, hpp, keyErr_some, ebind_ok, hss, hcc,
      Option.isNone_some, Bool.false_eq_true, if_false]
    rw [show read_file (some c) = .ok c from rfl]
    simp only [ebind_ok, hget, if_true]

/-- A further `update_check_code` with content equal to what already
decodes from the store is a no-op reporting `False`. -/
theorem unchanged_second_call (mtime' : Nat) (inv' : Inventory) (p s cid c : String)
    (svcs' : List (String × ServiceEntry)) (entry' : ServiceEntry) (rec' : CheckRecord)
    (hpp : dget inv' p = some svcs') (hss : dget svcs' s = some entry')
    (hcc : dget entry'.checks cid = some rec')
    (hget : get_check_code inv' p s cid = .ok c) :
    update_check_code mtime' inv' p s cid (some c) = .ok (inv', false) := by
  rw [update_check_code]
  simp only [Option.isSome_some, if_true, hpp, keyErr_some, ebind_ok, hss, hcc,
    Option.isNone_some, Bool.false_eq_true, if_false]
  rw [show read_file (some c) = .ok c from rfl]
  simp only [ebind_ok, hget, if_true]

/-- Claim C3: when `update_check_code` completes (returning any changed
flag), the check id is listed by `get_available_checks_in_service`,
`get_check_code` returns exactly the synced file content, and a second
call with an identical source file reports `changed = False` while leaving
the inventory untouched. -/
theorem claim_C3_update_check_code_sync (mtime : Nat) (inv inv' : Inventory)
    (p s cid c : String) (b : Bool)
    (hrun : update_check_code mtime inv p s cid (some c) = .ok (inv', b)) :
    cid ∈ get_available_checks_in_service inv' p s ∧
    get_check_code inv' p s cid = .ok c ∧
    ∀ mtime', update_check_code mtime' inv' p s cid (some c) = .ok (inv', false) := by
  rw [update_check_code] at hrun
  simp only [Option.isSome_some, if_true] at hrun
  cases hp : dget inv p with
  | none =>
    rw [hp] at hrun
    simp only [keyErr_none, ebind_error] at hrun
    exact Except.noConfusion hrun
  | some svcs =>
    rw [hp] at hrun
    simp only [keyErr_some, ebind_ok] at hrun
    cases hs : dget svcs s with
    | none =>
      rw [hs] at hrun
      simp only [keyErr_none, ebind_error] at hrun
      exact Except.noConfusion hrun
    | some entry =>
      rw [hs] at hrun
      simp only [keyErr_some, ebind_ok] at hrun
      rw [show read_file (some c) = .ok c from rfl] at hrun
      simp only [ebind_ok] at hrun
      cases hck : dget entry.checks cid with
      | none =>
        -- new check id: the skeleton is inserted first
        rw [hck] at hrun
        simp only [Option.isNone_none, if_true] at hrun
        have hget0 : get_check_code
            (set_check_record inv p s cid svcs entry emptyCheckRecord) p s cid = .ok "" := by
          rw [get_check_code, lookup_check_set_check_record_self]
          exact unpack_empty
        rw [hget0] at hrun
        simp only [ebind_ok] at hrun
        by_cases hceq : c = ""
        · rw [if_pos hceq] at hrun
          obtain ⟨rfl, rfl⟩ : set_check_record inv p s cid svcs entry emptyCheckRecord = inv' ∧
              false = b := by
            have := Except.ok.inj hrun
            exact ⟨congrArg Prod.fst this, congrArg Prod.snd this⟩
          have hpp : dget (set_check_record inv p s cid svcs entry emptyCheckRecord) p =
              some (dset svcs s { entry with checks := dset entry.checks cid emptyCheckRecord }) := by
            simp [set_check_record, dget_dset_self]
          refine ⟨?_, ?_, ?_⟩
          · simp only [get_available_checks_in_service, lookup_service, hpp, dget_dset_self,
              Option.map_some', Option.getD_some]
            exact dget_some_mem_dkeys _ _ _ (dget_dset_self _ _ _)
          · rw [hceq]; exact hget0
          · intro mtime'
            exact unchanged_second_call mtime' _ p s cid c _ _ _ hpp (dget_dset_self _ _ _)
              (dget_dset_self _ _ _) (hceq ▸ hget0)
        · rw [if_neg hceq] at hrun
          have hpp : dget (set_check_record inv p s cid svcs entry emptyCheckRecord) p =
              some (dset svcs s { entry with checks := dset entry.checks cid emptyCheckRecord }) := by
            simp [set_check_record, dget_dset_self]
          rw [hpp] at hrun
          simp only [keyErr_some, ebind_ok, dget_dset_self] at hrun
          obtain ⟨heq, rfl⟩ : _ = inv' ∧ true = b := by
            have := Except.ok.inj hrun
            exact ⟨congrArg Prod.fst this, congrArg Prod.snd this⟩
          rw [← heq]
          exact set_code_postconditions mtime _ p s cid c _ _ _ hpp (dget_dset_self _ _ _) rfl
      | some rec0 =>
        rw [hck] at hrun
        simp only [Option.isNone_some, Bool.false_eq_true, if_false] at hrun
        cases hst : get_check_code inv p s cid with
        | error e =>
          rw [hst] at hrun
          simp only [ebind_error] at hrun
          exact Except.noConfusion hrun
        | ok stored =>
          rw [hst] at hrun
          simp only [ebind_ok] at hrun
          by_cases hceq : c = stored
          · rw [if_pos hceq] at hrun
            obtain ⟨rfl, rfl⟩ : inv = inv' ∧ false = b := by
              have := Except.ok.inj hrun
              exact ⟨congrArg Prod.fst this, congrArg Prod.snd this⟩
            have hget : get_check_code inv p s cid = .ok c := by rw [hst, hceq]
            refine ⟨?_, hget, fun mtime' =>
              unchanged_second_call mtime' inv p s cid c svcs entry rec0 hp hs hck hget⟩
            simp only [get_available_checks_in_service, lookup_service, hp, hs,
              Option.map_some', Option.getD_some]
            exact dget_some_mem_dkeys _ _ _ hck
          · rw [if_neg hceq, hp] at hrun
            simp only [keyErr_some, ebind_ok, hs, hck] at hrun
            obtain ⟨heq, rfl⟩ : _ = inv' ∧ true = b := by
              have := Except.ok.inj hrun
              exact ⟨congrArg Prod.fst this, congrArg Prod.snd this⟩
            rw [← heq]
            exact set_code_postconditions mtime inv p s cid c svcs entry _ hp hs rfl

/-- The inventory produced by the C3 witness sync. -/
def invC3 : Inventory :=
  [("aws", [("s3", ServiceEntry.mk "" ""
    [("s3_new", CheckRecord.mk "" (_prepare_data_for_storage 3 "print(1)") "")])])]

/-- Witness for C3: syncing a new check file into a provider/service that
exists lists the check, reads back its exact content, and an identical
re-sync reports `changed = False`. -/
theorem claim_C3_witness :
    "s3_new" ∈ get_available_checks_in_service invC3 "aws" "s3" ∧
    get_check_code invC3 "aws" "s3" "s3_new" = .ok "print(1)" ∧
    ∀ mtime', update_check_code mtime' invC3 "aws" "s3" "s3_new" (some "print(1)") =
      .ok (invC3, false) :=
  claim_C3_update_check_code_sync 3 invC8 invC3 "aws" "s3" "s3_new" "print(1)" true rfl

/-- Claim C5: the fan-in join of `check_return`.  Whichever of the two
branch results arrives first is buffered (held, not discarded) and the
step returns `None`; the second arrival releases the join, and — in either
arrival order — the run produces exactly one terminal result, a status-0
success carrying both the metadata and the code result. -/
theorem claim_C5_join (o : FinalizeOracles) (inv : Inventory) (check_path : String)
    (md : CheckMetadataResultE) (cd : CheckCodeResultE) (pv sv orig : String)
    (h2 : (pySplit '/' check_path).get? 2 = some pv)
    (h4 : (pySplit '/' check_path).get? 4 = some sv)
    (hsvc : get_service_code inv pv sv = .ok orig) :
    run_check_return o inv check_path [JoinEvent.metadata md] =
      ({ metadataEvs := [md], codeEvs := [] }, []) ∧
    run_check_return o inv check_path [JoinEvent.code cd] =
      ({ metadataEvs := [], codeEvs := [cd] }, []) ∧
    run_check_return o inv check_path [JoinEvent.metadata md, JoinEvent.code cd] =
      run_check_return o inv check_path [JoinEvent.code cd, JoinEvent.metadata md] ∧
    (∃ r, run_check_return o inv check_path [JoinEvent.metadata md, JoinEvent.code cd] =
        ({ metadataEvs := [], codeEvs := [] }, [r]) ∧
      r.status_code = 0 ∧ r.check_metadata = some md.check_metadata ∧
      r.check_code = some cd.check_code ∧ r.check_path = some check_path) := by
  refine ⟨rfl, rfl, ?_, ?_⟩
  · by_cases hmsc : cd.modified_service_code = ""
    · simp [run_check_return, check_return, collect_events, hmsc]
    · have h2' : (pySplit '/' check_path)[2]? = some pv := by simpa using h2
      have h4' : (pySplit '/' check_path)[4]? = some sv := by simpa using h4
      simp [run_check_return, check_return, collect_events, hmsc, h2', h4', hsvc,
        keyErr_some, ebind_ok]
  · by_cases hmsc : cd.modified_service_code = ""
    · refine ⟨{ status_code := 0
                user_answer := some (o.prettify md.check_metadata cd.check_code "" check_path)
                check_metadata := some md.check_metadata
                check_code := some cd.check_code
                check_path := some check_path
                generic_remediation := some (o.remediation
                  (o.prettify md.check_metadata cd.check_code "" check_path))
                service_code := none }, ?_, rfl, rfl, rfl, rfl⟩
      simp [run_check_return, check_return, collect_events, hmsc, ebind_ok]
    · have h2' : (pySplit '/' check_path)[2]? = some pv := by simpa using h2
      have h4' : (pySplit '/' check_path)[4]? = some sv := by simpa using h4
      refine ⟨{ status_code := 0
                user_answer := some (o.prettify md.check_metadata cd.check_code
                  (o.unifiedDiff orig cd.modified_service_code) check_path)
                check_metadata := some md.check_metadata
                check_code := some cd.check_code
                check_path := some check_path
                generic_remediation := some (o.remediation
                  (o.prettify md.check_metadata cd.check_code
                    (o.unifiedDiff orig cd.modified_service_code) check_path))
                service_code := some cd.modified_service_code }, ?_, rfl, rfl, rfl, rfl⟩
      simp [run_check_return, check_return, collect_events, hmsc, h2', h4', hsvc,
        keyErr_some, ebind_ok]

/-- Constant oracles for the C5 witness. -/
def oC5 : FinalizeOracles :=
  { prettify := fun _ _ _ _ => "answer", remediation := fun _ => "remediation",
    unifiedDiff := fun _ _ => "diff" }

/-- Witness for C5 at concrete events and inventory: the metadata-first
order releases the join exactly once with a status-0 result holding both
payloads. -/
theorem claim_C5_witness :
    ∃ r, run_check_return oC5 invC1 "prowler/providers/aws/services/s3/s3_x"
        [JoinEvent.metadata (CheckMetadataResultE.mk Json.null),
         JoinEvent.code (CheckCodeResultE.mk "code" "")] =
      ({ metadataEvs := [], codeEvs := [] }, [r]) ∧
      r.status_code = 0 ∧ r.check_metadata = some Json.null ∧
      r.check_code = some "code" ∧
      r.check_path = some "prowler/providers/aws/services/s3/s3_x" :=
  (claim_C5_join oC5 invC1 "prowler/providers/aws/services/s3/s3_x"
    (CheckMetadataResultE.mk Json.null) (CheckCodeResultE.mk "code" "") "aws" "s3" ""
    rfl rfl rfl).2.2.2

/-! ## Machinery for the deletion-sweep claim (C4) -/

/-- `checkKeyIn inv q s' c'`: the inventory holds a check named `c'` under
provider `q` and service `s'`. -/
def checkKeyIn (inv : Inventory) (q s' c' : String) : Prop :=
  ∃ svcs' e', dget inv q = some svcs' ∧ dget svcs' s' = some e' ∧ c' ∈ dkeys e'.checks

/-- `subInv a b`: every check key of `a` is a check key of `b` under the
same provider and service (the sweep only removes entries). -/
def subInv (a b : Inventory) : Prop :=
  ∀ q s' c', checkKeyIn a q s' c' → checkKeyIn b q s' c'

/-- All dictionary levels of the inventory have pairwise distinct keys
(true of Python dicts; preserved by every sweep operation). -/
def invNodup (inv : Inventory) : Prop :=
  (dkeys inv).Nodup ∧ ∀ q svcs, dget inv q = some svcs →
    ((dkeys svcs).Nodup ∧ ∀ s e, dget svcs s = some e → (dkeys e.checks).Nodup)

theorem subInv_refl (a : Inventory) : subInv a a := fun _ _ _ h => h

theorem subInv_trans {a b c : Inventory} (h1 : subInv a b) (h2 : subInv b c) : subInv a c :=
  fun q s' c' h => h2 q s' c' (h1 q s' c' h)

theorem dkeys_ddel_sublist {α : Type} (m : List (String × α)) (k : String) :
    List.Sublist (dkeys (ddel m k)) (dkeys m) := by
  induction m with
  | nil => simp [ddel]
  | cons hd tl ih =>
    obtain ⟨k₀, v₀⟩ := hd
    by_cases h0 : k₀ = k
    · subst h0
      rw [ddel, if_pos rfl]
      exact (List.sublist_cons_self _ _)
    · rw [ddel, if_neg h0]
      exact List.Sublist.cons₂ _ ih

theorem dkeys_ddel_sub {α : Type} (m : List (String × α)) (k k' : String)
    (h : k' ∈ dkeys (ddel m k)) : k' ∈ dkeys m :=
  (dkeys_ddel_sublist m k).mem h

theorem dkeys_dset_of_present {α : Type} (m : List (String × α)) (k : String) (v : α)
    (h : k ∈ dkeys m) : dkeys (dset m k v) = dkeys m := by
  induction m with
  | nil => simp [dkeys] at h
  | cons hd tl ih =>
    obtain ⟨k₀, v₀⟩ := hd
    by_cases h0 : k₀ = k
    · subst h0
      rw [dset, if_pos rfl]
      rfl
    · rw [dset, if_neg h0]
      have h' : k ∈ dkeys tl := by
        simp only [dkeys, List.map_cons, List.mem_cons] at h
        exact h.resolve_left (fun he => h0 he.symm)
      exact congrArg (List.cons k₀) (ih h')

theorem dget_of_mem_dkeys {α : Type} (m : List (String × α)) (k : String)
    (h : k ∈ dkeys m) : ∃ v, dget m k = some v := by
  induction m with
  | nil => simp [dkeys] at h
  | cons hd tl ih =>
    obtain ⟨k₀, v₀⟩ := hd
    by_cases h0 : k₀ = k
    · subst h0
      exact ⟨v₀, by rw [dget, if_pos rfl]⟩
    · have h' : k ∈ dkeys tl := by
        simp only [dkeys, List.map_cons, List.mem_cons] at h
        exact h.resolve_left (fun he => h0 he.symm)
      obtain ⟨v, hv⟩ := ih h'
      exact ⟨v, by rw [dget, if_neg h0]; exact hv⟩

theorem invNodup_delete_check (inv : Inventory) (q c : String) (hn : invNodup inv) :
    invNodup (delete_check inv q c).1 := by
  cases hp : dget inv q with
  | none => simpa [delete_check, hp] using hn
  | some svcs =>
    cases hs : dget svcs (service_of_check_id c) with
    | none => simpa [delete_check, hp, hs] using hn
    | some entry =>
      cases hc : dget entry.checks c with
      | none => simpa [delete_check, hp, hs, hc] using hn
      | some rec =>
        simp only [delete_check, hp, hs, hc]
        obtain ⟨hn1, hn2⟩ := hn
        have hqmem : q ∈ dkeys inv := dget_some_mem_dkeys _ _ _ hp
        have hsmem : service_of_check_id c ∈ dkeys svcs := dget_some_mem_dkeys _ _ _ hs
        constructor
        · rw [dkeys_dset_of_present _ _ _ hqmem]
          exact hn1
        · intro q1 svcs1 hq1
          by_cases hqq : q = q1
          · subst hqq
            rw [dget_dset_self] at hq1
            cases hq1
            obtain ⟨hsn, hcn⟩ := hn2 q svcs hp
            constructor
            · rw [dkeys_dset_of_present _ _ _ hsmem]
              exact hsn
            · intro s1 e1 hs1
              by_cases hss : service_of_check_id c = s1
              · subst hss
                rw [dget_dset_self] at hs1
                cases hs1
                exact (hcn _ _ hs).sublist (dkeys_ddel_sublist _ _)
              · rw [dget_dset_ne _ _ _ _ hss] at hs1
                exact hcn _ _ hs1
          · rw [dget_dset_ne _ _ _ _ hqq] at hq1
            exact hn2 _ _ hq1

theorem invNodup_delete_service (inv : Inventory) (q s : String) (hn : invNodup inv) :
    invNodup (delete_service inv q s).1 := by
  cases hp : dget inv q with
  | none => simpa [delete_service, hp] using hn
  | some svcs =>
    cases hs : dget svcs s with
    | none => simpa [delete_service, hp, hs] using hn
    | some entry =>
      simp only [delete_service, hp, hs]
      obtain ⟨hn1, hn2⟩ := hn
      have hqmem : q ∈ dkeys inv := dget_some_mem_dkeys _ _ _ hp
      constructor
      · rw [dkeys_dset_of_present _ _ _ hqmem]
        exact hn1
      · intro q1 svcs1 hq1
        by_cases hqq : q = q1
        · subst hqq
          rw [dget_dset_self] at hq1
          cases hq1
          obtain ⟨hsn, hcn⟩ := hn2 q svcs hp
          constructor
          · exact hsn.sublist (dkeys_ddel_sublist _ _)
          · intro s1 e1 hs1
            exact hcn _ _ (by
              by_cases hss : s = s1
              · subst hss
                rw [dget_ddel_self _ _ hsn] at hs1
                exact absurd hs1 (by simp)
              · rw [dget_ddel_ne _ _ _ hss] at hs1
                exact hs1)
        · rw [dget_dset_ne _ _ _ _ hqq] at hq1
          exact hn2 _ _ hq1

theorem invNodup_delete_provider (inv : Inventory) (q : String) (hn : invNodup inv) :
    invNodup (delete_provider inv q).1 := by
  cases hp : dget inv q with
  | none => simpa [delete_provider, hp] using hn
  | some svcs =>
    simp only [delete_provider, hp]
    obtain ⟨hn1, hn2⟩ := hn
    constructor
    · exact hn1.sublist (dkeys_ddel_sublist _ _)
    · intro q1 svcs1 hq1
      by_cases hqq : q = q1
      · subst hqq
        rw [dget_ddel_self _ _ hn1] at hq1
        exact absurd hq1 (by simp)
      · rw [dget_ddel_ne _ _ _ hqq] at hq1
        exact hn2 _ _ hq1

theorem dget_delete_check_ne (inv : Inventory) (q c r : String) (h : r ≠ q) :
    dget (delete_check inv q c).1 r = dget inv r := by
  cases hp : dget inv q with
  | none => simp [delete_check, hp]
  | some svcs =>
    cases hs : dget svcs (service_of_check_id c) with
    | none => simp [delete_check, hp, hs]
    | some entry =>
      cases hc : dget entry.checks c with
      | none => simp [delete_check, hp, hs, hc]
      | some rec =>
        simp only [delete_check, hp, hs, hc]
        exact dget_dset_ne inv q r _ (fun he => h he.symm)

theorem dget_delete_service_ne (inv : Inventory) (q s r : String) (h : r ≠ q) :
    dget (delete_service inv q s).1 r = dget inv r := by
  cases hp : dget inv q with
  | none => simp [delete_service, hp]
  | some svcs =>
    cases hs : dget svcs s with
    | none => simp [delete_service, hp, hs]
    | some entry =>
      simp only [delete_service, hp, hs]
      exact dget_dset_ne inv q r _ (fun he => h he.symm)

theorem dget_delete_provider_ne (inv : Inventory) (q r : String) (h : r ≠ q) :
    dget (delete_provider inv q).1 r = dget inv r := by
  cases hp : dget inv q with
  | none => simp [delete_provider, hp]
  | some svcs =>
    simp only [delete_provider, hp]
    exact dget_ddel_ne inv q r (fun he => h he.symm)

theorem subInv_delete_check (inv : Inventory) (q c : String) (hn : invNodup inv) :
    subInv (delete_check inv q c).1 inv := by
  intro q1 s1 c1 hk
  cases hp : dget inv q with
  | none => rw [show (delete_check inv q c).1 = inv by simp [delete_check, hp]] at hk; exact hk
  | some svcs =>
    cases hs : dget svcs (service_of_check_id c) with
    | none =>
      rw [show (delete_check inv q c).1 = inv by simp [delete_check, hp, hs]] at hk
      exact hk
    | some entry =>
      cases hc : dget entry.checks c with
      | none =>
        rw [show (delete_check inv q c).1 = inv by simp [delete_check, hp, hs, hc]] at hk
        exact hk
      | some rec =>
        rw [show (delete_check inv q c).1 =
            dset inv q (dset svcs (service_of_check_id c)
              { entry with checks := ddel entry.checks c }) by
          simp [delete_check, hp, hs, hc]] at hk
        obtain ⟨svcs', e', hgq, hgs, hmem⟩ := hk
        by_cases hq : q = q1
        · subst hq
          rw [dget_dset_self] at hgq
          cases hgq
          by_cases hsv : service_of_check_id c = s1
          · subst hsv
            rw [dget_dset_self] at hgs
            cases hgs
            exact ⟨svcs, entry, hp, hs, dkeys_ddel_sub _ _ _ hmem⟩
          · rw [dget_dset_ne _ _ _ _ hsv] at hgs
            exact ⟨svcs, e', hp, hgs, hmem⟩
        · rw [dget_dset_ne _ _ _ _ hq] at hgq
          exact ⟨svcs', e', hgq, hgs, hmem⟩

theorem subInv_delete_service (inv : Inventory) (q s : String) (hn : invNodup inv) :
    subInv (delete_service inv q s).1 inv := by
  intro q1 s1 c1 hk
  cases hp : dget inv q with
  | none => rw [show (delete_service inv q s).1 = inv by simp [delete_service, hp]] at hk; exact hk
  | some svcs =>
    cases hs : dget svcs s with
    | none =>
      rw [show (delete_service inv q s).1 = inv by simp [delete_service, hp, hs]] at hk
      exact hk
    | some entry =>
      rw [show (delete_service inv q s).1 = dset inv q (ddel svcs s) by
        simp [delete_service, hp, hs]] at hk
      obtain ⟨svcs', e', hgq, hgs, hmem⟩ := hk
      by_cases hq : q = q1
      · subst hq
        rw [dget_dset_self] at hgq
        cases hgq
        by_cases hsv : s = s1
        · subst hsv
          rw [dget_ddel_self _ _ (hn.2 q svcs hp).1] at hgs
          exact absurd hgs (by simp)
        · rw [dget_ddel_ne _ _ _ hsv] at hgs
          exact ⟨svcs, e', hp, hgs, hmem⟩
      · rw [dget_dset_ne _ _ _ _ hq] at hgq
        exact ⟨svcs', e', hgq, hgs, hmem⟩

theorem subInv_delete_provider (inv : Inventory) (q : String) (hn : invNodup inv) :
    subInv (delete_provider inv q).1 inv := by
  intro q1 s1 c1 hk
  cases hp : dget inv q with
  | none => rw [show (delete_provider inv q).1 = inv by simp [delete_provider, hp]] at hk; exact hk
  | some svcs =>
    rw [show (delete_provider inv q).1 = ddel inv q by simp [delete_provider, hp]] at hk
    obtain ⟨svcs', e', hgq, hgs, hmem⟩ := hk
    by_cases hq : q = q1
    · subst hq
      rw [dget_ddel_self _ _ hn.1] at hgq
      exact absurd hgq (by simp)
    · rw [dget_ddel_ne _ _ _ hq] at hgq
      exact ⟨svcs', e', hgq, hgs, hmem⟩

theorem get_available_checks_eq_dkeys (inv : Inventory) (q t : String)
    (svcs : List (String × ServiceEntry)) (e : ServiceEntry)
    (hq : dget inv q = some svcs) (ht : dget svcs t = some e) :
    get_available_checks_in_service inv q t = dkeys e.checks := by
  simp [get_available_checks_in_service, lookup_service, hq, ht]

theorem get_available_services_eq_dkeys (inv : Inventory) (q : String)
    (svcs : List (String × ServiceEntry)) (hq : dget inv q = some svcs) :
    get_available_services_in_provider inv q = dkeys svcs := by
  simp [get_available_services_in_provider, hq]

theorem mem_get_available_checks (inv : Inventory) (q t c : String)
    (h : c ∈ get_available_checks_in_service inv q t) : checkKeyIn inv q t c := by
  rw [get_available_checks_in_service] at h
  cases hq : dget inv q with
  | none => simp [lookup_service, hq, dkeys] at h
  | some svcs =>
    cases ht : dget svcs t with
    | none => simp [lookup_service, hq, ht, dkeys] at h
    | some e =>
      refine ⟨svcs, e, hq, ht, ?_⟩
      simpa [lookup_service, hq, ht] using h

theorem lookup_check_none_iff (inv : Inventory) (p s cid : String) :
    lookup_check inv p s cid = none ↔ ¬ checkKeyIn inv p s cid := by
  constructor
  · intro h hk
    obtain ⟨svcs', e', hgq, hgs, hmem⟩ := hk
    have hls : lookup_service inv p s = some e' := by
      simp [lookup_service, hgq, hgs]
    rw [lookup_check, hls] at h
    have h' : dget e'.checks cid = none := h
    obtain ⟨v, hv⟩ := dget_of_mem_dkeys _ _ hmem
    rw [hv] at h'
    exact Option.noConfusion h'
  · intro h
    rw [lookup_check]
    cases hls : lookup_service inv p s with
    | none => rfl
    | some e =>
      cases hc : dget e.checks cid with
      | none => exact hc
      | some rec =>
        exfalso
        apply h
        rw [lookup_service] at hls
        cases hq : dget inv p with
        | none => rw [hq] at hls; exact Option.noConfusion hls
        | some svcs =>
          rw [hq] at hls
          exact ⟨svcs, e, hq, hls, dget_some_mem_dkeys _ _ _ hc⟩

theorem count_map_eq_count_of_inj (f : String → String) (l : List String) (x : String)
    (hinj : ∀ c ∈ l, f c = f x → c = x) : (l.map f).count (f x) = l.count x := by
  induction l with
  | nil => rfl
  | cons c cs ih =>
    simp only [List.map_cons, List.count_cons]
    rw [ih (fun c' hc' => hinj c' (by simp [hc']))]
    by_cases hcx : c = x
    · subst hcx; simp
    · have : ¬(f c = f x) := fun he => hcx (hinj c (by simp) he)
      simp [hcx, this]

theorem count_map_eq_zero (f : String → String) (l : List String) (y : String)
    (h : ∀ c ∈ l, f c ≠ y) : (l.map f).count y = 0 := by
  rw [List.count_eq_zero]
  intro hmem
  obtain ⟨c, hc, rfl⟩ := List.mem_map.1 hmem
  exact h c hc rfl

theorem count_flatMap_one (f : String → List String) (ts : List String) (y s : String)
    (hmem : s ∈ ts) (hnd : ts.Nodup) (h1 : (f s).count y = 1)
    (h0 : ∀ t ∈ ts, t ≠ s → (f t).count y = 0) : (ts.flatMap f).count y = 1 := by
  induction ts with
  | nil => simp at hmem
  | cons t ts ih =>
    simp only [List.flatMap_cons, List.count_append]
    rcases List.mem_cons.1 hmem with heq | hmem'
    · subst heq
      rw [h1]
      have hz : (ts.flatMap f).count y = 0 := by
        rw [List.count_eq_zero]
        intro hx
        obtain ⟨t', ht', hxin⟩ := List.mem_flatMap.1 hx
        have hne : t' ≠ s := fun he => (List.nodup_cons.1 hnd).1 (he ▸ ht')
        have := h0 t' (List.mem_cons_of_mem _ ht') hne
        rw [List.count_eq_zero] at this
        exact this hxin
      omega
    · have hts : t ≠ s := fun he => (List.nodup_cons.1 hnd).1 (he ▸ hmem')
      rw [h0 t (List.mem_cons_self _ _) hts,
        ih hmem' (List.nodup_cons.1 hnd).2 (fun t' ht' => h0 t' (List.mem_cons_of_mem _ ht'))]

theorem dget_some_mem {α : Type} (m : List (String × α)) (k : String) (v : α)
    (h : dget m k = some v) : (k, v) ∈ m := by
  induction m with
  | nil => simp [dget] at h
  | cons kv rest ih =>
    rw [dget] at h
    by_cases hk : kv.1 = k
    · rw [if_pos hk] at h
      cases h
      exact List.mem_cons.2 (Or.inl (by rw [← hk]))
    · rw [if_neg hk] at h
      exact List.mem_cons_of_mem _ (ih h)

/-- Bounded (decidable) form of `invNodup`, quantifying over the stored
entries instead of over all key strings. -/
def invNodupB (inv : Inventory) : Prop :=
  (dkeys inv).Nodup ∧ ∀ qp ∈ inv, (dkeys qp.2).Nodup ∧ ∀ sp ∈ qp.2, (dkeys sp.2.checks).Nodup

instance (inv : Inventory) : Decidable (invNodupB inv) := by
  unfold invNodupB
  infer_instance

theorem invNodupB_invNodup (inv : Inventory) (h : invNodupB inv) : invNodup inv := by
  refine ⟨h.1, fun q svcs hq => ?_⟩
  have hmem := dget_some_mem _ _ _ hq
  refine ⟨(h.2 _ hmem).1, fun s e hs => ?_⟩
  exact (h.2 _ hmem).2 _ (dget_some_mem _ _ _ hs)

/-- Bounded (decidable) well-formedness of the inventory relative to a target
composite id: every stored check id's first-underscore prefix names its
service, and no stored entry other than the target itself produces the
target's composite document id. -/
def invWellFormedFor (inv : Inventory) (p cid : String) : Prop :=
  ∀ qp ∈ inv, ∀ sp ∈ qp.2, ∀ cp ∈ sp.2.checks,
    service_of_check_id cp.1 = sp.1 ∧
    (composite_id qp.1 cp.1 = composite_id p cid → qp.1 = p ∧ cp.1 = cid)

instance (inv : Inventory) (p cid : String) : Decidable (invWellFormedFor inv p cid) := by
  unfold invWellFormedFor
  infer_instance

theorem checkKeyIn_entry (inv : Inventory) (q t c : String) (hk : checkKeyIn inv q t c) :
    ∃ svcs e v, (q, svcs) ∈ inv ∧ (t, e) ∈ svcs ∧ (c, v) ∈ e.checks := by
  obtain ⟨svcs, e, hq, ht, hmem⟩ := hk
  obtain ⟨v, hv⟩ := dget_of_mem_dkeys _ _ hmem
  exact ⟨svcs, e, v, dget_some_mem _ _ _ hq, dget_some_mem _ _ _ ht, dget_some_mem _ _ _ hv⟩

theorem invWellFormedFor_prefix (inv : Inventory) (p cid : String)
    (hwf : invWellFormedFor inv p cid) (q t c : String) (hk : checkKeyIn inv q t c) :
    service_of_check_id c = t := by
  obtain ⟨svcs, e, v, h1, h2, h3⟩ := checkKeyIn_entry inv q t c hk
  exact (hwf _ h1 _ h2 _ h3).1

theorem invWellFormedFor_nocollide (inv : Inventory) (p cid : String)
    (hwf : invWellFormedFor inv p cid) (q t c : String) (hk : checkKeyIn inv q t c)
    (he : composite_id q c = composite_id p cid) : q = p ∧ c = cid := by
  obtain ⟨svcs, e, v, h1, h2, h3⟩ := checkKeyIn_entry inv q t c hk
  exact (hwf _ h1 _ h2 _ h3).2 he

theorem lookup_service_delete_check_ne (inv : Inventory) (q c s : String)
    (h : service_of_check_id c ≠ s) :
    lookup_service (delete_check inv q c).1 q s = lookup_service inv q s := by
  cases hp : dget inv q with
  | none => simp [delete_check, hp]
  | some svcs =>
    cases hs : dget svcs (service_of_check_id c) with
    | none => simp [delete_check, hp, hs]
    | some entry =>
      cases hc : dget entry.checks c with
      | none => simp [delete_check, hp, hs, hc]
      | some rec =>
        rw [show (delete_check inv q c).1 =
          dset inv q (dset svcs (service_of_check_id c)
            { entry with checks := ddel entry.checks c }) by
            simp [delete_check, hp, hs, hc]]
        rw [lookup_service, dget_dset_self, lookup_service, hp]
        exact dget_dset_ne _ _ _ _ h

theorem lookup_service_delete_service_ne (inv : Inventory) (q t s : String) (h : t ≠ s) :
    lookup_service (delete_service inv q t).1 q s = lookup_service inv q s := by
  cases hp : dget inv q with
  | none => simp [delete_service, hp]
  | some svcs =>
    cases hs : dget svcs t with
    | none => simp [delete_service, hp, hs]
    | some entry =>
      rw [show (delete_service inv q t).1 = dset inv q (ddel svcs t) by
        simp [delete_service, hp, hs]]
      rw [lookup_service, dget_dset_self, lookup_service, hp]
      exact dget_ddel_ne _ _ _ h

theorem sweep_check_foldl (fs : RepoFS) (q t : String) :
    ∀ (cs : List String) (inv0 : Inventory) (dels0 : List String),
    invNodup inv0 →
    ((cs.foldl (sweep_check fs q t) (inv0, dels0)).2 =
      dels0 ++ (cs.filter (fun c => !(fs.checkExists q t c))).map (composite_id q)) ∧
    (∀ r, r ≠ q → dget (cs.foldl (sweep_check fs q t) (inv0, dels0)).1 r = dget inv0 r) ∧
    subInv (cs.foldl (sweep_check fs q t) (inv0, dels0)).1 inv0 ∧
    invNodup (cs.foldl (sweep_check fs q t) (inv0, dels0)).1 := by
  intro cs
  induction cs with
  | nil =>
    intro inv0 dels0 hn
    exact ⟨by simp, fun r _ => rfl, subInv_refl inv0, hn⟩
  | cons c cs ih =>
    intro inv0 dels0 hn
    simp only [List.foldl_cons]
    by_cases he : fs.checkExists q t c
    · rw [show sweep_check fs q t (inv0, dels0) c = (inv0, dels0) by simp [sweep_check, he]]
      obtain ⟨h1, h2, h3, h4⟩ := ih inv0 dels0 hn
      refine ⟨?_, h2, h3, h4⟩
      rw [h1, List.filter_cons]
      simp [he]
    · rw [show sweep_check fs q t (inv0, dels0) c =
        ((delete_check inv0 q c).1, dels0 ++ [composite_id q c]) by simp [sweep_check, he]]
      obtain ⟨h1, h2, h3, h4⟩ :=
        ih (delete_check inv0 q c).1 (dels0 ++ [composite_id q c])
          (invNodup_delete_check inv0 q c hn)
      refine ⟨?_, ?_, subInv_trans h3 (subInv_delete_check inv0 q c hn), h4⟩
      · rw [h1, List.filter_cons]
        simp [he]
      · intro r hr
        rw [h2 r hr, dget_delete_check_ne inv0 q c r hr]

theorem sweep_service_step (fs : RepoFS) (q : String) (inv0 : Inventory)
    (dels0 : List String) (t : String) (hn : invNodup inv0) :
    (∃ news, (sweep_service fs q (inv0, dels0) t).2 = dels0 ++ news ∧
      ∀ x ∈ news, ∃ c', checkKeyIn inv0 q t c' ∧ x = composite_id q c') ∧
    (∀ r, r ≠ q → dget (sweep_service fs q (inv0, dels0) t).1 r = dget inv0 r) ∧
    subInv (sweep_service fs q (inv0, dels0) t).1 inv0 ∧
    invNodup (sweep_service fs q (inv0, dels0) t).1 := by
  by_cases hse : fs.serviceExists q t
  · rw [show sweep_service fs q (inv0, dels0) t =
      (get_available_checks_in_service inv0 q t).foldl (sweep_check fs q t) (inv0, dels0) by
        simp [sweep_service, hse]]
    obtain ⟨h1, h2, h3, h4⟩ :=
      sweep_check_foldl fs q t (get_available_checks_in_service inv0 q t) inv0 dels0 hn
    refine ⟨⟨_, h1, ?_⟩, h2, h3, h4⟩
    intro x hx
    obtain ⟨c', hc', rfl⟩ := List.mem_map.1 hx
    exact ⟨c', mem_get_available_checks inv0 q t c' (List.mem_of_mem_filter hc'), rfl⟩
  · rw [show sweep_service fs q (inv0, dels0) t =
      ((delete_service inv0 q t).1,
        dels0 ++ (get_available_checks_in_service inv0 q t).map (composite_id q)) by
        simp [sweep_service, hse]]
    refine ⟨⟨_, rfl, ?_⟩, fun r hr => dget_delete_service_ne inv0 q t r hr,
      subInv_delete_service inv0 q t hn, invNodup_delete_service inv0 q t hn⟩
    intro x hx
    obtain ⟨c', hc', rfl⟩ := List.mem_map.1 hx
    exact ⟨c', mem_get_available_checks inv0 q t c' hc', rfl⟩

theorem sweep_service_foldl (fs : RepoFS) (q : String) :
    ∀ (ts : List String) (inv0 : Inventory) (dels0 : List String),
    invNodup inv0 →
    (∃ news, (ts.foldl (sweep_service fs q) (inv0, dels0)).2 = dels0 ++ news ∧
      ∀ x ∈ news, ∃ t c', checkKeyIn inv0 q t c' ∧ x = composite_id q c') ∧
    (∀ r, r ≠ q → dget (ts.foldl (sweep_service fs q) (inv0, dels0)).1 r = dget inv0 r) ∧
    subInv (ts.foldl (sweep_service fs q) (inv0, dels0)).1 inv0 ∧
    invNodup (ts.foldl (sweep_service fs q) (inv0, dels0)).1 := by
  intro ts
  induction ts with
  | nil =>
    intro inv0 dels0 hn
    exact ⟨⟨[], by simp, by simp⟩, fun r _ => rfl, subInv_refl inv0, hn⟩
  | cons t ts ih =>
    intro inv0 dels0 hn
    obtain ⟨⟨news1, hd1, hm1⟩, hf1, hs1, hn1⟩ := sweep_service_step fs q inv0 dels0 t hn
    simp only [List.foldl_cons]
    rcases hst : sweep_service fs q (inv0, dels0) t with ⟨inv1, dels1⟩
    rw [hst] at hd1 hf1 hs1 hn1
    dsimp only at hd1 hf1 hs1 hn1
    obtain ⟨⟨news2, hd2, hm2⟩, hf2, hs2, hn2⟩ := ih inv1 dels1 hn1
    refine ⟨⟨news1 ++ news2, ?_, ?_⟩, ?_, subInv_trans hs2 hs1, hn2⟩
    · rw [hd2, hd1, List.append_assoc]
    · intro x hx
      rcases List.mem_append.1 hx with hx1 | hx2
      · obtain ⟨c', hk, rfl⟩ := hm1 x hx1
        exact ⟨t, c', hk, rfl⟩
      · obtain ⟨t', c', hk, rfl⟩ := hm2 x hx2
        exact ⟨t', c', hs1 q t' c' hk, rfl⟩
    · intro r hr
      rw [hf2 r hr, hf1 r hr]

theorem sweep_provider_step (fs : RepoFS) (inv0 : Inventory) (dels0 : List String)
    (q : String) (hn : invNodup inv0) :
    (∃ news, (sweep_provider fs (inv0, dels0) q).2 = dels0 ++ news ∧
      ∀ x ∈ news, ∃ t c', checkKeyIn inv0 q t c' ∧ x = composite_id q c') ∧
    (∀ r, r ≠ q → dget (sweep_provider fs (inv0, dels0) q).1 r = dget inv0 r) ∧
    subInv (sweep_provider fs (inv0, dels0) q).1 inv0 ∧
    invNodup (sweep_provider fs (inv0, dels0) q).1 := by
  by_cases hpe : fs.providerExists q
  · rw [show sweep_provider fs (inv0, dels0) q =
      (get_available_services_in_provider inv0 q).foldl (sweep_service fs q) (inv0, dels0) by
        simp [sweep_provider, hpe]]
    exact sweep_service_foldl fs q (get_available_services_in_provider inv0 q) inv0 dels0 hn
  · rw [show sweep_provider fs (inv0, dels0) q =
      ((delete_provider inv0 q).1,
        dels0 ++ (get_available_services_in_provider inv0 q).flatMap
          (fun service =>
            (get_available_checks_in_service inv0 q service).map (composite_id q))) by
        simp [sweep_provider, hpe]]
    refine ⟨⟨_, rfl, ?_⟩, fun r hr => dget_delete_provider_ne inv0 q r hr,
      subInv_delete_provider inv0 q hn, invNodup_delete_provider inv0 q hn⟩
    intro x hx
    obtain ⟨t, ht, hx2⟩ := List.mem_flatMap.1 hx
    obtain ⟨c', hc', rfl⟩ := List.mem_map.1 hx2
    exact ⟨t, c', mem_get_available_checks inv0 q t c' hc', rfl⟩

theorem sweep_provider_foldl_avoid (fs : RepoFS) (inv : Inventory) (p y : String) :
    ∀ (qs : List String) (inv0 : Inventory) (dels0 : List String),
    invNodup inv0 → subInv inv0 inv → p ∉ qs →
    (∀ q t c', q ∈ qs → checkKeyIn inv q t c' → composite_id q c' ≠ y) →
    (qs.foldl (sweep_provider fs) (inv0, dels0)).2.count y = dels0.count y ∧
    dget (qs.foldl (sweep_provider fs) (inv0, dels0)).1 p = dget inv0 p ∧
    subInv (qs.foldl (sweep_provider fs) (inv0, dels0)).1 inv0 ∧
    invNodup (qs.foldl (sweep_provider fs) (inv0, dels0)).1 := by
  intro qs
  induction qs with
  | nil =>
    intro inv0 dels0 hn _ _ _
    exact ⟨rfl, rfl, subInv_refl inv0, hn⟩
  | cons q qs ih =>
    intro inv0 dels0 hn hsub hnp hy
    have hpq : p ≠ q := fun he => hnp (he ▸ List.mem_cons_self _ _)
    obtain ⟨⟨news, hd, hm⟩, hf, hs, hn1⟩ := sweep_provider_step fs inv0 dels0 q hn
    simp only [List.foldl_cons]
    rcases hst : sweep_provider fs (inv0, dels0) q with ⟨inv1, dels1⟩
    rw [hst] at hd hf hs hn1
    dsimp only at hd hf hs hn1
    obtain ⟨h1, h2, h3, h4⟩ :=
      ih inv1 dels1 hn1 (subInv_trans hs hsub)
        (fun hmem => hnp (List.mem_cons_of_mem _ hmem))
        (fun q' t c' hq' hk => hy q' t c' (List.mem_cons_of_mem _ hq') hk)
    have hzero : news.count y = 0 := by
      rw [List.count_eq_zero]
      intro hx
      obtain ⟨t, c', hk, rfl⟩ := hm y hx
      exact hy q t c' (List.mem_cons_self _ _) (hsub q t c' hk) rfl
    refine ⟨?_, ?_, subInv_trans h3 hs, h4⟩
    · rw [h1, hd, List.count_append]
      omega
    · rw [h2, hf p hpq]

theorem sweep_check_step_keep (fs : RepoFS) (p s cid c : String)
    (cur : Inventory) (dels1 : List String)
    (hc1 : c ≠ cid) (hc2 : service_of_check_id c = s) (hn : invNodup cur)
    (hpres : ∃ eK v, lookup_service cur p s = some eK ∧ dget eK.checks cid = some v) :
    (∃ eK v, lookup_service (sweep_check fs p s (cur, dels1) c).1 p s = some eK ∧
      dget eK.checks cid = some v) ∧
    invNodup (sweep_check fs p s (cur, dels1) c).1 := by
  obtain ⟨eK, v, hls, hv⟩ := hpres
  by_cases he : fs.checkExists p s c
  · rw [show (sweep_check fs p s (cur, dels1) c).1 = cur by simp [sweep_check, he]]
    exact ⟨⟨eK, v, hls, hv⟩, hn⟩
  · rw [show (sweep_check fs p s (cur, dels1) c).1 = (delete_check cur p c).1 by
      simp [sweep_check, he]]
    refine ⟨?_, invNodup_delete_check cur p c hn⟩
    cases hq : dget cur p with
    | none => rw [lookup_service, hq] at hls; exact Option.noConfusion hls
    | some svcsC =>
      have hsv : dget svcsC s = some eK := by
        rw [lookup_service, hq] at hls
        exact hls
      cases hck : dget eK.checks c with
      | none =>
        rw [show (delete_check cur p c).1 = cur by
          simp [delete_check, hq, hc2, hsv, hck]]
        exact ⟨eK, v, hls, hv⟩
      | some w =>
        rw [show (delete_check cur p c).1 =
          dset cur p (dset svcsC s { eK with checks := ddel eK.checks c }) by
            simp [delete_check, hq, hc2, hsv, hck]]
        refine ⟨{ eK with checks := ddel eK.checks c }, v, ?_, ?_⟩
        · rw [lookup_service, dget_dset_self]
          exact dget_dset_self _ _ _
        · exact (dget_ddel_ne _ _ _ hc1).trans hv

theorem sweep_check_foldl_keep (fs : RepoFS) (p s cid : String) :
    ∀ (k1 : List String) (cur : Inventory) (dels1 : List String),
    (∀ c ∈ k1, c ≠ cid ∧ service_of_check_id c = s) →
    invNodup cur →
    (∃ eK v, lookup_service cur p s = some eK ∧ dget eK.checks cid = some v) →
    (∃ eK v, lookup_service (k1.foldl (sweep_check fs p s) (cur, dels1)).1 p s = some eK ∧
      dget eK.checks cid = some v) ∧
    invNodup (k1.foldl (sweep_check fs p s) (cur, dels1)).1 := by
  intro k1
  induction k1 with
  | nil =>
    intro cur dels1 _ hn hpres
    exact ⟨hpres, hn⟩
  | cons c k1 ih =>
    intro cur dels1 hk hn hpres
    obtain ⟨hc1, hc2⟩ := hk c (List.mem_cons_self _ _)
    obtain ⟨hpres1, hn1⟩ := sweep_check_step_keep fs p s cid c cur dels1 hc1 hc2 hn hpres
    simp only [List.foldl_cons]
    rcases hst : sweep_check fs p s (cur, dels1) c with ⟨cur1, delsA⟩
    rw [hst] at hpres1 hn1
    dsimp only at hpres1 hn1
    exact ih cur1 delsA (fun c' hc' => hk c' (List.mem_cons_of_mem _ hc')) hn1 hpres1

theorem sweep_check_removes (fs : RepoFS) (p s cid : String) (cur : Inventory)
    (dels1 : List String)
    (hmiss : fs.checkExists p s cid = false) (hpref : service_of_check_id cid = s)
    (hn : invNodup cur)
    (hpres : ∃ eK v, lookup_service cur p s = some eK ∧ dget eK.checks cid = some v) :
    lookup_check (sweep_check fs p s (cur, dels1) cid).1 p s cid = none ∧
    invNodup (sweep_check fs p s (cur, dels1) cid).1 := by
  obtain ⟨eK, v, hls, hv⟩ := hpres
  rw [show (sweep_check fs p s (cur, dels1) cid).1 = (delete_check cur p cid).1 by
    simp [sweep_check, hmiss]]
  refine ⟨?_, invNodup_delete_check cur p cid hn⟩
  cases hq : dget cur p with
  | none => rw [lookup_service, hq] at hls; exact Option.noConfusion hls
  | some svcsC =>
    have hsv : dget svcsC s = some eK := by
      rw [lookup_service, hq] at hls
      exact hls
    have hndk : (dkeys eK.checks).Nodup := (hn.2 p svcsC hq).2 s eK hsv
    rw [show (delete_check cur p cid).1 =
      dset cur p (dset svcsC s { eK with checks := ddel eK.checks cid }) by
        simp [delete_check, hq, hpref, hsv, hv]]
    have hls' : lookup_service
        (dset cur p (dset svcsC s { eK with checks := ddel eK.checks cid })) p s =
        some { eK with checks := ddel eK.checks cid } := by
      rw [lookup_service, dget_dset_self]
      exact dget_dset_self _ _ _
    rw [lookup_check, hls']
    exact dget_ddel_self _ _ hndk

theorem lookup_check_none_of_subInv (a b : Inventory) (p s cid : String)
    (hsub : subInv a b) (h : lookup_check b p s cid = none) :
    lookup_check a p s cid = none := by
  rw [lookup_check_none_iff] at h ⊢
  exact fun hk => h (hsub _ _ _ hk)

theorem checkKeyIn_of_lookup_service (cur : Inventory) (p s c : String)
    (entry : ServiceEntry) (hls : lookup_service cur p s = some entry)
    (hc : c ∈ dkeys entry.checks) : checkKeyIn cur p s c := by
  cases hq : dget cur p with
  | none => rw [lookup_service, hq] at hls; exact Option.noConfusion hls
  | some svcsC =>
    rw [lookup_service, hq] at hls
    exact ⟨svcsC, entry, hq, hls, hc⟩

theorem sweep_check_foldl_lookup_service (fs : RepoFS) (p t s : String) :
    ∀ (cs : List String) (cur : Inventory) (dels1 : List String),
    (∀ c ∈ cs, service_of_check_id c ≠ s) →
    lookup_service ((cs.foldl (sweep_check fs p t) (cur, dels1)).1) p s =
      lookup_service cur p s := by
  intro cs
  induction cs with
  | nil => intro cur dels1 _; rfl
  | cons c cs ih =>
    intro cur dels1 hcs
    simp only [List.foldl_cons]
    by_cases he : fs.checkExists p t c
    · rw [show sweep_check fs p t (cur, dels1) c = (cur, dels1) by simp [sweep_check, he]]
      exact ih cur dels1 (fun c' hc' => hcs c' (List.mem_cons_of_mem _ hc'))
    · rw [show sweep_check fs p t (cur, dels1) c =
        ((delete_check cur p c).1, dels1 ++ [composite_id p c]) by simp [sweep_check, he]]
      rw [ih _ _ (fun c' hc' => hcs c' (List.mem_cons_of_mem _ hc'))]
      exact lookup_service_delete_check_ne cur p c s (hcs c (List.mem_cons_self _ _))

theorem sweep_service_step_keep (fs : RepoFS) (inv : Inventory) (p s cid : String)
    (hwfP : ∀ q u c', checkKeyIn inv q u c' → service_of_check_id c' = u)
    (hwfC : ∀ q u c', checkKeyIn inv q u c' →
      composite_id q c' = composite_id p cid → q = p ∧ c' = cid)
    (hcids : service_of_check_id cid = s)
    (t : String) (hts : t ≠ s) (cur : Inventory) (dels1 : List String)
    (hn : invNodup cur) (hsub : subInv cur inv)
    (entry : ServiceEntry) (hls : lookup_service cur p s = some entry) :
    lookup_service (sweep_service fs p (cur, dels1) t).1 p s = some entry ∧
    (sweep_service fs p (cur, dels1) t).2.count (composite_id p cid) =
      dels1.count (composite_id p cid) ∧
    subInv (sweep_service fs p (cur, dels1) t).1 inv ∧
    invNodup (sweep_service fs p (cur, dels1) t).1 := by
  have hmemk : ∀ c ∈ get_available_checks_in_service cur p t, checkKeyIn inv p t c :=
    fun c hc => hsub _ _ _ (mem_get_available_checks cur p t c hc)
  have hnoty : ∀ c ∈ get_available_checks_in_service cur p t,
      composite_id p c ≠ composite_id p cid := by
    intro c hc he
    have hceq := (hwfC p t c (hmemk c hc) he).2
    subst hceq
    exact hts ((hwfP p t c (hmemk c hc)).symm.trans hcids)
  have hprefs : ∀ c ∈ get_available_checks_in_service cur p t,
      service_of_check_id c ≠ s := by
    intro c hc he
    exact hts ((hwfP p t c (hmemk c hc)).symm.trans he)
  by_cases hse : fs.serviceExists p t
  · rw [show sweep_service fs p (cur, dels1) t =
      (get_available_checks_in_service cur p t).foldl (sweep_check fs p t) (cur, dels1) by
        simp [sweep_service, hse]]
    obtain ⟨h1, _, h3, h4⟩ :=
      sweep_check_foldl fs p t (get_available_checks_in_service cur p t) cur dels1 hn
    refine ⟨?_, ?_, subInv_trans h3 hsub, h4⟩
    · rw [sweep_check_foldl_lookup_service fs p t s _ cur dels1 hprefs]
      exact hls
    · rw [h1, List.count_append]
      have hzz : List.count (composite_id p cid)
          (((get_available_checks_in_service cur p t).filter
            (fun c => !(fs.checkExists p t c))).map (composite_id p)) = 0 := by
        apply count_map_eq_zero
        intro c hc
        exact hnoty c (List.mem_of_mem_filter hc)
      omega
  · rw [show sweep_service fs p (cur, dels1) t =
      ((delete_service cur p t).1,
        dels1 ++ (get_available_checks_in_service cur p t).map (composite_id p)) by
        simp [sweep_service, hse]]
    refine ⟨lookup_service_delete_service_ne cur p t s hts ▸ hls, ?_,
      subInv_trans (subInv_delete_service cur p t hn) hsub,
      invNodup_delete_service cur p t hn⟩
    rw [List.count_append, count_map_eq_zero _ _ _ hnoty]
    omega

theorem sweep_service_foldl_keep (fs : RepoFS) (inv : Inventory) (p s cid : String)
    (hwfP : ∀ q u c', checkKeyIn inv q u c' → service_of_check_id c' = u)
    (hwfC : ∀ q u c', checkKeyIn inv q u c' →
      composite_id q c' = composite_id p cid → q = p ∧ c' = cid)
    (hcids : service_of_check_id cid = s) :
    ∀ (m1 : List String) (cur : Inventory) (dels1 : List String),
    s ∉ m1 → invNodup cur → subInv cur inv →
    ∀ entry, lookup_service cur p s = some entry →
    lookup_service ((m1.foldl (sweep_service fs p) (cur, dels1)).1) p s = some entry ∧
    ((m1.foldl (sweep_service fs p) (cur, dels1)).2.count (composite_id p cid) =
      dels1.count (composite_id p cid)) ∧
    subInv ((m1.foldl (sweep_service fs p) (cur, dels1)).1) inv ∧
    invNodup ((m1.foldl (sweep_service fs p) (cur, dels1)).1) := by
  intro m1
  induction m1 with
  | nil =>
    intro cur dels1 _ hn hsub entry hls
    exact ⟨hls, rfl, hsub, hn⟩
  | cons t m1 ih =>
    intro cur dels1 hsm hn hsub entry hls
    have hts : t ≠ s := fun he => hsm (he ▸ List.mem_cons_self _ _)
    obtain ⟨k1, k2, k3, k4⟩ :=
      sweep_service_step_keep fs inv p s cid hwfP hwfC hcids t hts cur dels1 hn hsub entry hls
    simp only [List.foldl_cons]
    rcases hst : sweep_service fs p (cur, dels1) t with ⟨cur1, dels2⟩
    rw [hst] at k1 k2 k3 k4
    dsimp only at k1 k2 k3 k4
    obtain ⟨h1, h2, h3, h4⟩ :=
      ih cur1 dels2 (fun hm => hsm (List.mem_cons_of_mem _ hm)) k4 k3 entry k1
    exact ⟨h1, h2.trans k2, h3, h4⟩

theorem sweep_service_foldl_count_post (fs : RepoFS) (inv : Inventory) (p s cid : String)
    (hwfP : ∀ q u c', checkKeyIn inv q u c' → service_of_check_id c' = u)
    (hwfC : ∀ q u c', checkKeyIn inv q u c' →
      composite_id q c' = composite_id p cid → q = p ∧ c' = cid)
    (hcids : service_of_check_id cid = s) :
    ∀ (m2 : List String) (cur : Inventory) (dels1 : List String),
    s ∉ m2 → invNodup cur → subInv cur inv →
    (m2.foldl (sweep_service fs p) (cur, dels1)).2.count (composite_id p cid) =
      dels1.count (composite_id p cid) := by
  intro m2
  induction m2 with
  | nil => intro cur dels1 _ _ _; rfl
  | cons t m2 ih =>
    intro cur dels1 hsm hn hsub
    have hts : t ≠ s := fun he => hsm (he ▸ List.mem_cons_self _ _)
    obtain ⟨⟨news, hd, hm⟩, _, hsb, hn1⟩ := sweep_service_step fs p cur dels1 t hn
    simp only [List.foldl_cons]
    rcases hst : sweep_service fs p (cur, dels1) t with ⟨cur1, dels2⟩
    rw [hst] at hd hsb hn1
    dsimp only at hd hsb hn1
    have hzero : news.count (composite_id p cid) = 0 := by
      rw [List.count_eq_zero]
      intro hx
      obtain ⟨c', hk, heq⟩ := hm _ hx
      have hk' := hsub _ _ _ hk
      have hcc := (hwfC p t c' hk' heq.symm).2
      subst hcc
      exact hts ((hwfP p t c' hk').symm.trans hcids)
    rw [ih cur1 dels2 (fun hmm => hsm (List.mem_cons_of_mem _ hmm)) hn1
      (subInv_trans hsb hsub), hd, List.count_append]
    omega

theorem sweep_service_at_s (fs : RepoFS) (inv : Inventory) (p s cid : String)
    (hwfP : ∀ q u c', checkKeyIn inv q u c' → service_of_check_id c' = u)
    (hwfC : ∀ q u c', checkKeyIn inv q u c' →
      composite_id q c' = composite_id p cid → q = p ∧ c' = cid)
    (hcids : service_of_check_id cid = s) (entry : ServiceEntry)
    (hnde : (dkeys entry.checks).Nodup) (hc : cid ∈ dkeys entry.checks)
    (hmiss : fs.checkExists p s cid = false)
    (cur : Inventory) (dels1 : List String)
    (hn : invNodup cur) (hsub : subInv cur inv)
    (hls : lookup_service cur p s = some entry) :
    (sweep_service fs p (cur, dels1) s).2.count (composite_id p cid) =
      dels1.count (composite_id p cid) + 1 ∧
    lookup_check (sweep_service fs p (cur, dels1) s).1 p s cid = none ∧
    subInv (sweep_service fs p (cur, dels1) s).1 inv ∧
    invNodup (sweep_service fs p (cur, dels1) s).1 := by
  have hcs : get_available_checks_in_service cur p s = dkeys entry.checks := by
    simp [get_available_checks_in_service, hls]
  have hinj : ∀ c ∈ dkeys entry.checks, composite_id p c = composite_id p cid → c = cid :=
    fun c hcm he =>
      (hwfC p s c (hsub _ _ _ (checkKeyIn_of_lookup_service cur p s c entry hls hcm)) he).2
  by_cases hse : fs.serviceExists p s
  · rw [show sweep_service fs p (cur, dels1) s =
      (get_available_checks_in_service cur p s).foldl (sweep_check fs p s) (cur, dels1) by
        simp [sweep_service, hse]]
    rw [hcs]
    obtain ⟨h1, _, h3, h4⟩ := sweep_check_foldl fs p s (dkeys entry.checks) cur dels1 hn
    refine ⟨?_, ?_, subInv_trans h3 hsub, h4⟩
    · rw [h1, List.count_append]
      have hps : ((dkeys entry.checks).filter
          (fun c => !(fs.checkExists p s c))).count cid = 1 :=
        List.count_eq_one_of_mem (hnde.filter _)
          (List.mem_filter.2 ⟨hc, by rw [hmiss]; rfl⟩)
      have hmc := count_map_eq_count_of_inj (composite_id p)
        ((dkeys entry.checks).filter (fun c => !(fs.checkExists p s c))) cid
        (fun c hcm he => hinj c (List.mem_of_mem_filter hcm) he)
      rw [hmc, hps]
    · obtain ⟨k1, k2, hsplit⟩ := List.append_of_mem hc
      have hnodups : (k1 ++ cid :: k2).Nodup := hsplit ▸ hnde
      have hcid_k1 : cid ∉ k1 := fun hmem =>
        (List.nodup_append.1 hnodups).2.2 hmem (List.mem_cons_self _ _)
      have hk1 : ∀ c ∈ k1, c ≠ cid ∧ service_of_check_id c = s := by
        intro c hcm
        refine ⟨fun he => hcid_k1 (he ▸ hcm), ?_⟩
        have hmem' : c ∈ dkeys entry.checks := by
          rw [hsplit]
          exact List.mem_append_left _ hcm
        exact hwfP p s c (hsub _ _ _ (checkKeyIn_of_lookup_service cur p s c entry hls hmem'))
      obtain ⟨v, hv⟩ := dget_of_mem_dkeys _ _ hc
      rw [hsplit, List.foldl_append, List.foldl_cons]
      obtain ⟨hpresA, hnA⟩ :=
        sweep_check_foldl_keep fs p s cid k1 cur dels1 hk1 hn ⟨entry, v, hls, hv⟩
      rcases hstA : k1.foldl (sweep_check fs p s) (cur, dels1) with ⟨curA, delsA⟩
      rw [hstA] at hpresA hnA
      dsimp only at hpresA hnA
      obtain ⟨hnone, hnB⟩ :=
        sweep_check_removes fs p s cid curA delsA hmiss hcids hnA hpresA
      rcases hstB : sweep_check fs p s (curA, delsA) cid with ⟨curB, delsB⟩
      rw [hstB] at hnone hnB
      dsimp only at hnone hnB
      obtain ⟨_, _, hsubC, _⟩ := sweep_check_foldl fs p s k2 curB delsB hnB
      exact lookup_check_none_of_subInv _ _ p s cid hsubC hnone
  · rw [show sweep_service fs p (cur, dels1) s =
      ((delete_service cur p s).1,
        dels1 ++ (get_available_checks_in_service cur p s).map (composite_id p)) by
        simp [sweep_service, hse]]
    cases hq : dget cur p with
    | none => rw [lookup_service, hq] at hls; exact Option.noConfusion hls
    | some svcsC =>
      have hsv : dget svcsC s = some entry := by
        rw [lookup_service, hq] at hls
        exact hls
      refine ⟨?_, ?_, subInv_trans (subInv_delete_service cur p s hn) hsub,
        invNodup_delete_service cur p s hn⟩
      · rw [hcs, List.count_append]
        have hmc := count_map_eq_count_of_inj (composite_id p) (dkeys entry.checks) cid hinj
        rw [hmc, List.count_eq_one_of_mem hnde hc]
      · rw [show (delete_service cur p s).1 = dset cur p (ddel svcsC s) by
          simp [delete_service, hq, hsv]]
        have hlsn : lookup_service (dset cur p (ddel svcsC s)) p s = none := by
          rw [lookup_service, dget_dset_self]
          exact dget_ddel_self _ _ (hn.2 p svcsC hq).1
        rw [lookup_check, hlsn]

theorem sweep_provider_at_p (fs : RepoFS) (inv : Inventory) (p s cid : String)
    (svcs : List (String × ServiceEntry)) (entry : ServiceEntry)
    (hninv : invNodup inv)
    (hwfP : ∀ q u c', checkKeyIn inv q u c' → service_of_check_id c' = u)
    (hwfC : ∀ q u c', checkKeyIn inv q u c' →
      composite_id q c' = composite_id p cid → q = p ∧ c' = cid)
    (hp : dget inv p = some svcs) (hs : dget svcs s = some entry)
    (hc : cid ∈ dkeys entry.checks) (hmiss : fs.checkExists p s cid = false)
    (invp : Inventory) (dels : List String)
    (hpp : dget invp p = dget inv p) (hninvp : invNodup invp) (hsub : subInv invp inv) :
    (sweep_provider fs (invp, dels) p).2.count (composite_id p cid) =
      dels.count (composite_id p cid) + 1 ∧
    lookup_check (sweep_provider fs (invp, dels) p).1 p s cid = none ∧
    subInv (sweep_provider fs (invp, dels) p).1 inv ∧
    invNodup (sweep_provider fs (invp, dels) p).1 := by
  have hq : dget invp p = some svcs := hpp.trans hp
  have hcids : service_of_check_id cid = s := hwfP p s cid ⟨svcs, entry, hp, hs, hc⟩
  have hnds : (dkeys svcs).Nodup := (hninv.2 p svcs hp).1
  have hnde : (dkeys entry.checks).Nodup := (hninv.2 p svcs hp).2 s entry hs
  have hts : get_available_services_in_provider invp p = dkeys svcs :=
    get_available_services_eq_dkeys invp p svcs hq
  have hsmem : s ∈ dkeys svcs := dget_some_mem_dkeys _ _ _ hs
  by_cases hpe : fs.providerExists p
  · rw [show sweep_provider fs (invp, dels) p =
      (get_available_services_in_provider invp p).foldl (sweep_service fs p) (invp, dels) by
        simp [sweep_provider, hpe]]
    rw [hts]
    obtain ⟨m1, m2, hsplit⟩ := List.append_of_mem hsmem
    have hnodups : (m1 ++ s :: m2).Nodup := hsplit ▸ hnds
    have hsm1 : s ∉ m1 := fun hmem =>
      (List.nodup_append.1 hnodups).2.2 hmem (List.mem_cons_self _ _)
    have hsm2 : s ∉ m2 := (List.nodup_cons.1 (List.nodup_append.1 hnodups).2.1).1
    have hls0 : lookup_service invp p s = some entry := by
      rw [lookup_service, hq]
      exact hs
    rw [hsplit, List.foldl_append, List.foldl_cons]
    obtain ⟨ha1, ha2, ha3, ha4⟩ :=
      sweep_service_foldl_keep fs inv p s cid hwfP hwfC hcids m1 invp dels hsm1 hninvp
        hsub entry hls0
    rcases hstA : m1.foldl (sweep_service fs p) (invp, dels) with ⟨curA, delsA⟩
    rw [hstA] at ha1 ha2 ha3 ha4
    dsimp only at ha1 ha2 ha3 ha4
    obtain ⟨hb1, hb2, hb3, hb4⟩ :=
      sweep_service_at_s fs inv p s cid hwfP hwfC hcids entry hnde hc hmiss curA delsA
        ha4 ha3 ha1
    rcases hstB : sweep_service fs p (curA, delsA) s with ⟨curB, delsB⟩
    rw [hstB] at hb1 hb2 hb3 hb4
    dsimp only at hb1 hb2 hb3 hb4
    have hcnt := sweep_service_foldl_count_post fs inv p s cid hwfP hwfC hcids m2 curB
      delsB hsm2 hb4 hb3
    obtain ⟨_, _, hc3, hc4⟩ := sweep_service_foldl fs p m2 curB delsB hb4
    refine ⟨?_, lookup_check_none_of_subInv _ _ p s cid hc3 hb2,
      subInv_trans hc3 hb3, hc4⟩
    rw [hcnt, hb1, ha2]
  · rw [show sweep_provider fs (invp, dels) p =
      ((delete_provider invp p).1,
        dels ++ (get_available_services_in_provider invp p).flatMap
          (fun service =>
            (get_available_checks_in_service invp p service).map (composite_id p))) by
        simp [sweep_provider, hpe]]
    refine ⟨?_, ?_, subInv_trans (subInv_delete_provider invp p hninvp) hsub,
      invNodup_delete_provider invp p hninvp⟩
    · rw [List.count_append, hts]
      have hcheq : get_available_checks_in_service invp p s = dkeys entry.checks :=
        get_available_checks_eq_dkeys invp p s svcs entry hq hs
      have hone : ((get_available_checks_in_service invp p s).map
          (composite_id p)).count (composite_id p cid) = 1 := by
        rw [hcheq]
        have hinj : ∀ c ∈ dkeys entry.checks,
            composite_id p c = composite_id p cid → c = cid :=
          fun c hcm he => (hwfC p s c ⟨svcs, entry, hp, hs, hcm⟩ he).2
        rw [count_map_eq_count_of_inj (composite_id p) (dkeys entry.checks) cid hinj,
          List.count_eq_one_of_mem hnde hc]
      have hflat : ((dkeys svcs).flatMap
          (fun service =>
            (get_available_checks_in_service invp p service).map
              (composite_id p))).count (composite_id p cid) = 1 := by
        apply count_flatMap_one _ _ _ s hsmem hnds hone
        intro t htm hts'
        apply count_map_eq_zero
        intro c hcm he
        have hk : checkKeyIn invp p t c := mem_get_available_checks invp p t c hcm
        have hk' := hsub _ _ _ hk
        have hcc := (hwfC p t c hk' he).2
        subst hcc
        exact hts' ((hwfP p t c hk').symm.trans hcids)
      rw [hflat]
    · rw [show (delete_provider invp p).1 = ddel invp p by simp [delete_provider, hq]]
      have hlsn : lookup_service (ddel invp p) p s = none := by
        rw [lookup_service, dget_ddel_self _ _ hninvp.1]
      rw [lookup_check, hlsn]

/-- C4 (amended): on a well-formed inventory — pairwise-distinct keys at
every level, every stored check id's first-underscore prefix naming its
service, and no other entry sharing the target's composite id — a check that
is stored under `(p, s)` but whose source path is missing is reported by the
deletion sweep as `composite_id p cid` exactly once and is absent from the
resulting inventory. -/
theorem claim_C4_amended (fs : RepoFS) (inv : Inventory) (p s cid : String)
    (svcs : List (String × ServiceEntry)) (entry : ServiceEntry)
    (hnB : invNodupB inv) (hwf : invWellFormedFor inv p cid)
    (hp : dget inv p = some svcs) (hs : dget svcs s = some entry)
    (hc : cid ∈ dkeys entry.checks) (hmiss : fs.checkExists p s cid = false) :
    (_load_deleted_checks_from_local_repo fs inv).2.count (composite_id p cid) = 1 ∧
    lookup_check (_load_deleted_checks_from_local_repo fs inv).1 p s cid = none := by
  have hninv := invNodupB_invNodup inv hnB
  have hwfP := invWellFormedFor_prefix inv p cid hwf
  have hwfC := invWellFormedFor_nocollide inv p cid hwf
  have hpmem : p ∈ dkeys inv := dget_some_mem_dkeys _ _ _ hp
  rw [_load_deleted_checks_from_local_repo,
    show get_available_providers inv = dkeys inv from rfl]
  obtain ⟨l1, l2, hsplit⟩ := List.append_of_mem hpmem
  have hnodup : (l1 ++ p :: l2).Nodup := hsplit ▸ hninv.1
  have hpl1 : p ∉ l1 := fun hmem =>
    (List.nodup_append.1 hnodup).2.2 hmem (List.mem_cons_self _ _)
  have hpl2 : p ∉ l2 := (List.nodup_cons.1 (List.nodup_append.1 hnodup).2.1).1
  rw [hsplit, List.foldl_append, List.foldl_cons]
  obtain ⟨hc1, hc2, hc3, hc4⟩ :=
    sweep_provider_foldl_avoid fs inv p (composite_id p cid) l1 inv [] hninv
      (subInv_refl inv) hpl1
      (fun q t c' hq hk he => hpl1 ((hwfC q t c' hk he).1 ▸ hq))
  rcases hst1 : l1.foldl (sweep_provider fs) (inv, []) with ⟨inv1, dels1⟩
  rw [hst1] at hc1 hc2 hc3 hc4
  dsimp only at hc1 hc2 hc3 hc4
  obtain ⟨hd1, hd2, hd3, hd4⟩ :=
    sweep_provider_at_p fs inv p s cid svcs entry hninv hwfP hwfC hp hs hc hmiss
      inv1 dels1 hc2 hc4 hc3
  rcases hst2 : sweep_provider fs (inv1, dels1) p with ⟨inv2, dels2⟩
  rw [hst2] at hd1 hd2 hd3 hd4
  dsimp only at hd1 hd2 hd3 hd4
  obtain ⟨he1, _, he3, _⟩ :=
    sweep_provider_foldl_avoid fs inv p (composite_id p cid) l2 inv2 dels2 hd4 hd3 hpl2
      (fun q t c' hq hk he => hpl2 ((hwfC q t c' hk he).1 ▸ hq))
  refine ⟨?_, lookup_check_none_of_subInv _ _ p s cid he3 hd2⟩
  rw [he1, hd1, hc1]
  simp

/-- The inventory of the C4 counterexample: check id `s3_x` stored under a
service named `storage`, which is not the id's first-underscore prefix. -/
def invC4 : Inventory :=
  [("aws", [("storage",
    { description := ""
      code := ""
      checks := [("s3_x", emptyCheckRecord)] })])]

/-- Source tree of the C4 counterexample and witness: provider and service
directories exist, no check path exists. -/
def fsC4 : RepoFS :=
  { providerExists := fun _ => true
    serviceExists := fun _ _ => true
    checkExists := fun _ _ _ => false }

/-- C4 counterexample to the unamended claim: the check `s3_x` of provider
`aws` has no source path, and the sweep does report its composite id
`aws_s3_x` once — but `delete_check` resolves the service from the id prefix
`s3`, not `storage`, so the deletion is a silent no-op: the inventory is
returned unchanged and the check entry is still present. -/
theorem claim_C4_counterexample :
    (_load_deleted_checks_from_local_repo fsC4 invC4).2 = ["aws_s3_x"] ∧
    (_load_deleted_checks_from_local_repo fsC4 invC4).1 = invC4 ∧
    lookup_check (_load_deleted_checks_from_local_repo fsC4 invC4).1
      "aws" "storage" "s3_x" = some emptyCheckRecord :=
  ⟨rfl, rfl, rfl⟩

/-- Well-formed single-check inventory for the C4 witness: the check id's
prefix `s3` names its service. -/
def invC4W : Inventory :=
  [("aws", [("s3",
    { description := ""
      code := ""
      checks := [("s3_x", emptyCheckRecord)] })])]

theorem claim_C4_amended_witness :
    invNodupB invC4W ∧ invWellFormedFor invC4W "aws" "s3_x" ∧
    fsC4.checkExists "aws" "s3" "s3_x" = false ∧
    ((_load_deleted_checks_from_local_repo fsC4 invC4W).2.count
        (composite_id "aws" "s3_x") = 1 ∧
      lookup_check (_load_deleted_checks_from_local_repo fsC4 invC4W).1
        "aws" "s3" "s3_x" = none) :=
  ⟨by decide, by decide, rfl,
    claim_C4_amended fsC4 invC4W "aws" "s3" "s3_x" _ _ (by decide) (by decide)
      rfl rfl (by decide) rfl⟩
